import Mathlib

/-!
Verification of the iterator/concurrency engine of the rivet-concurrency
plugin (src/src/nodes/IteratorPluginNode.ts).

The TypeScript source is shallowly embedded: JavaScript runtime values are
an inductive `JSValue`; fallible JavaScript code (code that can throw) is
embedded in `Except String`; the module-level mutable cache map and the
per-invocation mutable state (`abortIteration`, `cacheStorage.cache`) are
passed explicitly.  External collaborators that are not part of the
repository (the SHA-256 digest, `JSON.stringify` / `JSON.parse`, the
LZ-string codec, the rivet data-type predicates, and the `p-queue`
bounded executor) are modelled from the specification's interface
contracts; each such definition is marked `Modelled from the spec:` in its
doc comment.
-/

set_option maxHeartbeats 1000000

namespace RivetIterator

/-- JavaScript runtime values as manipulated by the iterator plugin:
`null`, `undefined`, booleans, numbers (modelled as integers — floating
point behaviour is out of scope), bigints (which `JSON.stringify`
rejects), strings, arrays, plain objects (ordered association lists of
fields), and functions (opaque). -/
inductive JSValue where
  | null
  | undef
  | bool (b : Bool)
  | num (n : Int)
  | bigint (n : Int)
  | str (s : String)
  | arr (elems : List JSValue)
  | obj (fields : List (String × JSValue))
  | func

mutual

/-- Structural equality of JavaScript values (SameValueZero on primitives;
structural on containers — see the comment at `addToSet` for where the
reference-equality of real JS objects could differ). -/
def beqJS : JSValue → JSValue → Bool
  | .null, .null => true
  | .undef, .undef => true
  | .bool a, .bool b => a == b
  | .num a, .num b => a == b
  | .bigint a, .bigint b => a == b
  | .str a, .str b => a == b
  | .arr xs, .arr ys => beqJSList xs ys
  | .obj xs, .obj ys => beqJSFields xs ys
  | .func, .func => true
  | _, _ => false

/-- Elementwise `beqJS` on lists of values. -/
def beqJSList : List JSValue → List JSValue → Bool
  | [], [] => true
  | x :: xs, y :: ys => beqJS x y && beqJSList xs ys
  | _, _ => false

/-- Elementwise `beqJS` on field lists. -/
def beqJSFields : List (String × JSValue) → List (String × JSValue) → Bool
  | [], [] => true
  | (ka, va) :: xs, (kb, vb) :: ys => ka == kb && beqJS va vb && beqJSFields xs ys
  | _, _ => false

end

instance : BEq JSValue := ⟨beqJS⟩

/-- The JavaScript `typeof` operator (note `typeof null` is `"object"`). -/
def jsTypeof : JSValue → String
  | .null => "object"
  | .undef => "undefined"
  | .bool _ => "boolean"
  | .num _ => "number"
  | .bigint _ => "bigint"
  | .str _ => "string"
  | .arr _ => "object"
  | .obj _ => "object"
  | .func => "function"

/-- Null-safe property read, as in the optional chaining `data?.type`:
reading a property of anything but a plain object with that field yields
`undefined` (`none`). -/
def getField : JSValue → String → Option JSValue
  | .obj fields, key => fields.lookup key
  | _, _ => none

/-- The JavaScript `in` operator restricted to the property names the
source tests (`"type" in data`, `"value" in data`); arrays and functions
do not carry those properties in any flow of this plugin. -/
def hasField (v : JSValue) (key : String) : Bool :=
  match v with
  | .obj fields => fields.any (fun f => f.1 == key)
  | _ => false

/-- JavaScript property write `o[k] = v` on a plain object: overwrite the
existing field in place, else append. -/
def setFieldList (fields : List (String × JSValue)) (key : String) (v : JSValue) :
    List (String × JSValue) :=
  match fields with
  | [] => [(key, v)]
  | (k, w) :: rest =>
      if k == key then (key, v) :: rest else (k, w) :: setFieldList rest key v

/-- JavaScript `Object.keys`: throws a `TypeError` on `null` / `undefined`;
on a plain object it is the field names in insertion order; on an array
(or string) it is the index strings; otherwise empty. -/
def objectKeys : JSValue → Except String (List String)
  | .null => .error "TypeError: Cannot convert undefined or null to object"
  | .undef => .error "TypeError: Cannot convert undefined or null to object"
  | .obj fields => .ok (fields.map Prod.fst)
  | .arr elems => .ok ((List.range elems.length).map toString)
  | .str s => .ok ((List.range s.length).map toString)
  | _ => .ok []

/-- JavaScript `Object.values`, with the same throwing behaviour as
`objectKeys`. -/
def objectValues : JSValue → Except String (List JSValue)
  | .null => .error "TypeError: Cannot convert undefined or null to object"
  | .undef => .error "TypeError: Cannot convert undefined or null to object"
  | .obj fields => .ok (fields.map Prod.snd)
  | .arr elems => .ok elems
  | .str s => .ok (s.toList.map (fun c => .str (String.mk [c])))
  | _ => .ok []

/-- Modelled from the spec: rivet-core's `isScalarDataType` (the rivet
library is an external collaborator).  The spec only requires a fixed
set of scalar tag names; a representative sample is used. -/
def isScalarDataType (t : String) : Bool :=
  t == "string" || t == "number" || t == "boolean" || t == "date" ||
    t == "chat-message" || t == "any"

/-- Modelled from the spec: rivet-core's `isArrayDataType`. -/
def isArrayDataType (t : String) : Bool :=
  t == "string[]" || t == "number[]" || t == "boolean[]" || t == "object[]" ||
    t == "any[]"

/-- Modelled from the spec: rivet-core's `isFunctionDataType`. -/
def isFunctionDataType (t : String) : Bool :=
  t == "fn<string>" || t == "fn<object>"

/-- Line 514: `isAnyDataValue` — `typeof data == "object" && "type" in data
&& "value" in data && (isScalar || isArray || isFunction)`.  The `in`
operator throws a `TypeError` when its right operand is `null` (which has
`typeof` `"object"`), so the check is fallible. -/
def isAnyDataValue (data : JSValue) : Except String Bool :=
  if jsTypeof data == "object" then
    match data with
    | .null => .error "TypeError: Cannot use in operator to search for type in null"
    | _ =>
        .ok (hasField data "type" && hasField data "value" &&
          (match getField data "type" with
           | some (.str t) => isScalarDataType t || isArrayDataType t || isFunctionDataType t
           | _ => false))
  else .ok false

/-- Line 529: `isObjectDataValue` — `typeof data == "object" &&
data?.type == "object" && typeof data?.value == "object"` (optional
chaining, so never throws). -/
def isObjectDataValue (data : JSValue) : Bool :=
  jsTypeof data == "object" &&
    (match getField data "type" with
     | some (.str t) => t == "object"
     | _ => false) &&
    (match getField data "value" with
     | some v => jsTypeof v == "object"
     | none => false)

/-- JavaScript `Set.add` followed by insertion-ordered iteration: append
if not already present.  (Real JS sets compare objects by reference; in
every flow of this plugin at most one non-primitive value is ever added
to a set, so structural equality is an adequate model.) -/
def addToSet (s : List JSValue) (v : JSValue) : List JSValue :=
  if s.contains v then s else s ++ [v]

/-- One node of the called subgraph (only the fields the plugin reads). -/
structure GraphNode where
  type : String
  data : JSValue

/-- The called subgraph (`NodeGraph`): its node list. -/
structure NodeGraph where
  nodes : List GraphNode

/-- Lines 578–584: the expected input keys of the graph — the `"id"`
field of each `graphInput` node's data, with `null` / missing ids
filtered out (`id ?? null` then `.filter(f => f != null)`). -/
def expectedKeysOf (graph : NodeGraph) : List JSValue :=
  ((graph.nodes.filter (fun n => n.type == "graphInput")).map
      (fun n => match getField n.data "id" with
        | some v => v
        | none => JSValue.null)).filter
    (fun v => !(v == JSValue.null))

/-- Line 589: `itemKeys.includes(key)` — `itemKeys` is a list of strings,
so a non-string expected key (possible despite the `as string` cast) is
never found (`Array.includes` uses SameValueZero). -/
def includesKey (itemKeys : List String) (key : JSValue) : Bool :=
  match key with
  | .str s => itemKeys.contains s
  | _ => false

/-- Lines 596–608: `itemValues.some(...)` — stops at the first value that
is not a data value, adding only that value to `notDataValue`; a thrown
`TypeError` (from `isAnyDataValue` on `null`) propagates. -/
def checkItemValues (itemValues : List JSValue) (notDataValue : List JSValue) :
    Except String (Bool × List JSValue) :=
  match itemValues with
  | [] => .ok (false, notDataValue)
  | v :: rest => do
      let isDataType ← isAnyDataValue v
      if !isDataType then
        .ok (true, addToSet notDataValue v)
      else
        checkItemValues rest notDataValue

/-- Lines 564–571: the item's key and value lists — `Object.keys(item)`
and `Object.values(item)`, replaced by the wrapped object's keys/values
when the item is an `ObjectDataValue` wrapper.  `Object.keys(item)` is
evaluated before the `isObjectDataValue` test, so a `null` item throws
here first. -/
def itemEntriesOf (item : JSValue) : Except String (List String × List JSValue) := do
  let itemKeys0 ← objectKeys item
  let itemKeys ←
    if isObjectDataValue item then
      match getField item "value" with
      | some v => objectKeys v
      | none => pure itemKeys0
    else pure itemKeys0
  let itemValues0 ← objectValues item
  let itemValues ←
    if isObjectDataValue item then
      match getField item "value" with
      | some v => objectValues v
      | none => pure itemValues0
    else pure itemValues0
  .ok (itemKeys, itemValues)

/-- Lines 558–610: `validateInputItem(item, graph, missingKeys,
notDataValue)`.  Returns `true` when the item is invalid; the two shared
accumulator sets are threaded explicitly.  Note the early `return true`
on missing keys: an item with missing keys never has its values
checked. -/
def validateInputItem (item : JSValue) (graph : NodeGraph)
    (missingKeys notDataValue : List JSValue) :
    Except String (Bool × List JSValue × List JSValue) := do
  let (itemKeys, itemValues) ← itemEntriesOf item
  let expectedKeys := expectedKeysOf graph
  if expectedKeys.any (fun key => !includesKey itemKeys key) then
    let missing :=
      (expectedKeys.filter (fun key => !includesKey itemKeys key)).foldl addToSet missingKeys
    .ok (true, missing, notDataValue)
  else do
    let (invalidData, notDataValue) ← checkItemValues itemValues notDataValue
    .ok (invalidData, missingKeys, notDataValue)

/-- Lines 347–349: `iteratorInputs.some(s => validateInputItem(...))` —
`Array.some` short-circuits at the first item reported invalid. -/
def validateAll (items : List JSValue) (graph : NodeGraph)
    (missingKeys notDataValue : List JSValue) :
    Except String (Bool × List JSValue × List JSValue) :=
  match items with
  | [] => .ok (false, missingKeys, notDataValue)
  | item :: rest => do
      let (invalid, missingKeys, notDataValue) ←
        validateInputItem item graph missingKeys notDataValue
      if invalid then .ok (true, missingKeys, notDataValue)
      else validateAll rest graph missingKeys notDataValue

/-! ### Canonical JSON serialization

Modelled from the spec: `JSON.stringify` / `JSON.parse` are JavaScript
builtins (external to the repository); the spec describes them as the
"canonical serialization" used both by the content hasher and by the
compressed-object codec.  The model below serializes `JSValue` to the
standard JSON text format: numbers in decimal, strings quoted with
`\"`/`\\`/`\u00XX` escapes, arrays and objects with `[`/`]` and braces,
`undefined`/function object fields dropped, `undefined`/function array
elements written as `null`, and bigints rejected with a `TypeError`
(exactly `JSON.stringify`'s behaviour on the corresponding JS values). -/

/-- An opening brace character (written via its code point). -/
def lbrace : Char := Char.ofNat 123

/-- A closing brace character (written via its code point). -/
def rbrace : Char := Char.ofNat 125

/-- Decimal digit character for `d < 10`. -/
def digitChar (d : Nat) : Char := Char.ofNat (48 + d)

/-- Lower-case hexadecimal digit character for `d < 16`. -/
def hexChar (d : Nat) : Char :=
  if d < 10 then Char.ofNat (48 + d) else Char.ofNat (87 + d)

/-- Decimal digit characters of `n`, most significant first. -/
def natChars (n : Nat) : List Char :=
  if _h : n < 10 then [digitChar n]
  else natChars (n / 10) ++ [digitChar (n % 10)]
decreasing_by exact Nat.div_lt_self (by omega) (by omega)

/-- Decimal characters of an integer (a leading minus sign when negative). -/
def intChars (n : Int) : List Char :=
  if n < 0 then '-' :: natChars (-n).toNat else natChars n.toNat

/-- JSON escape of one string character: `\"`, `\\`, `\u00XX` for control
characters, and the character itself otherwise. -/
def escapeChar (c : Char) : List Char :=
  if c == '"' then ['\\', '"']
  else if c == '\\' then ['\\', '\\']
  else if c.toNat < 32 then ['\\', 'u', '0', '0', hexChar (c.toNat / 16), hexChar (c.toNat % 16)]
  else [c]

/-- JSON escape of a character sequence. -/
def escapeChars : List Char → List Char
  | [] => []
  | c :: cs => escapeChar c ++ escapeChars cs

/-- A JSON string literal: quote, escaped content, quote. -/
def serializeStringChars (s : String) : List Char :=
  '"' :: (escapeChars s.toList ++ ['"'])

/-- Fields with `undefined` or function values are dropped by
`JSON.stringify`. -/
def isDroppedField : JSValue → Bool
  | .undef => true
  | .func => true
  | _ => false

mutual

/-- JSON text of one value (in array-element position `undefined` and
functions serialize as `null`; bigints raise a `TypeError`). -/
def serializeValue : JSValue → Except String (List Char)
  | .null => .ok ['n', 'u', 'l', 'l']
  | .undef => .ok ['n', 'u', 'l', 'l']
  | .func => .ok ['n', 'u', 'l', 'l']
  | .bool true => .ok ['t', 'r', 'u', 'e']
  | .bool false => .ok ['f', 'a', 'l', 's', 'e']
  | .num n => .ok (intChars n)
  | .bigint _ => .error "TypeError: Do not know how to serialize a BigInt"
  | .str s => .ok (serializeStringChars s)
  | .arr elems => do
      let body ← serializeElems elems
      .ok ('[' :: (body ++ [']']))
  | .obj fields => do
      let body ← serializeFields fields
      .ok (lbrace :: (body ++ [rbrace]))

/-- Comma-separated JSON texts of array elements. -/
def serializeElems : List JSValue → Except String (List Char)
  | [] => .ok []
  | e :: rest =>
      if rest.isEmpty then serializeValue e
      else do
        let c ← serializeValue e
        let r ← serializeElems rest
        .ok (c ++ ',' :: r)

/-- Comma-separated JSON texts of object members; fields whose value is
`undefined` or a function are dropped, as `JSON.stringify` does. -/
def serializeFields : List (String × JSValue) → Except String (List Char)
  | [] => .ok []
  | (k, v) :: rest =>
      if isDroppedField v then serializeFields rest
      else do
        let vc ← serializeValue v
        let r ← serializeFields rest
        let member := serializeStringChars k ++ ':' :: vc
        .ok (if r.isEmpty then member else member ++ ',' :: r)

end

/-- Modelled from the spec: `JSON.stringify` on a top-level value.  A
top-level `undefined`/function makes `JSON.stringify` return `undefined`
(not a string); the codec never feeds it one, and the model reports that
case as an error. -/
def jsonStringify (v : JSValue) : Except String String :=
  if isDroppedField v then .error "JSON.stringify returned undefined"
  else do
    let cs ← serializeValue v
    .ok (String.mk cs)

/-! ### JSON parsing (the model of `JSON.parse`) -/

/-- Value of a hexadecimal digit character. -/
def hexVal (c : Char) : Option Nat :=
  if 48 ≤ c.toNat && c.toNat ≤ 57 then some (c.toNat - 48)
  else if 97 ≤ c.toNat && c.toNat ≤ 102 then some (c.toNat - 87)
  else none

mutual

/-- Reads the body of a JSON string literal (the opening quote already
consumed): returns the decoded characters and the input remaining after
the closing quote.  Handles exactly the escapes the canonical serializer
emits. -/
def readStringChars : List Char → Option (List Char × List Char)
  | [] => none
  | c :: rest =>
      if c == '"' then some ([], rest)
      else if c == '\\' then readEscape rest
      else
        match readStringChars rest with
        | some (cs, r) => some (c :: cs, r)
        | none => none
termination_by cs => cs.length

/-- Reads the remainder of a string literal after a backslash. -/
def readEscape : List Char → Option (List Char × List Char)
  | 'u' :: h1 :: h2 :: h3 :: h4 :: rest2 =>
      (match hexVal h1, hexVal h2, hexVal h3, hexVal h4 with
       | some a, some b, some c3, some d =>
           (match readStringChars rest2 with
            | some (cs, r) =>
                some (Char.ofNat (4096 * a + 256 * b + 16 * c3 + d) :: cs, r)
            | none => none)
       | _, _, _, _ => none)
  | '"' :: rest2 =>
      (match readStringChars rest2 with
       | some (cs, r) => some ('"' :: cs, r)
       | none => none)
  | '\\' :: rest2 =>
      (match readStringChars rest2 with
       | some (cs, r) => some ('\\' :: cs, r)
       | none => none)
  | _ => none
termination_by cs => cs.length

end

/-- Numeric value of a nonempty digit sequence, most significant first. -/
def digitsToNat (ds : List Char) : Nat :=
  ds.foldl (fun acc c => 10 * acc + (c.toNat - 48)) 0

/-- Reads a nonempty run of decimal digits from the front of the input. -/
def parseNatPart (cs : List Char) : Option (Nat × List Char) :=
  let ds := cs.takeWhile Char.isDigit
  if ds.isEmpty then none else some (digitsToNat ds, cs.dropWhile Char.isDigit)

/-- Parses a string literal after its opening quote. -/
def parseStringLit (rest : List Char) : Option (JSValue × List Char) :=
  match readStringChars rest with
  | some (content, r) => some (.str (String.mk content), r)
  | none => none

/-- Parses the digits after a leading minus sign. -/
def parseNegNum (rest : List Char) : Option (JSValue × List Char) :=
  match parseNatPart rest with
  | some (n, r) => some (.num (-(n : Int)), r)
  | none => none

/-- Parses the digits of a non-negative number. -/
def parsePosNum (cs : List Char) : Option (JSValue × List Char) :=
  match parseNatPart cs with
  | some (n, r) => some (.num (n : Int), r)
  | none => none

/-- Matches an expected literal character sequence at the front of the
input, returning the remainder. -/
def expectChars : List Char → List Char → Option (List Char)
  | [], cs => some cs
  | p :: ps, c :: cs => if c == p then expectChars ps cs else none
  | _ :: _, [] => none

mutual

/-- Fuel-indexed JSON value parser (whitespace-free input, as the
canonical serializer emits), dispatching on the first character. -/
def parseValue : Nat → List Char → Option (JSValue × List Char)
  | 0, _ => none
  | _ + 1, [] => none
  | fuel + 1, c :: rest =>
      if c == 'n' then
        match expectChars ['u', 'l', 'l'] rest with
        | some r => some (.null, r)
        | none => none
      else if c == 't' then
        match expectChars ['r', 'u', 'e'] rest with
        | some r => some (.bool true, r)
        | none => none
      else if c == 'f' then
        match expectChars ['a', 'l', 's', 'e'] rest with
        | some r => some (.bool false, r)
        | none => none
      else if c == '"' then parseStringLit rest
      else if c == '[' then parseAfterBracket fuel rest
      else if c == '-' then parseNegNum rest
      else if c == lbrace then parseAfterBrace fuel rest
      else if c.isDigit then parsePosNum (c :: rest)
      else none
termination_by fuel cs => (fuel, 3)

/-- Parses what follows an opening `[`: an empty array or its elements. -/
def parseAfterBracket (fuel : Nat) (rest : List Char) : Option (JSValue × List Char) :=
  match rest with
  | [] =>
      (match parseElems fuel [] with
       | some (es, r) => some (.arr es, r)
       | none => none)
  | c :: r =>
      if c == ']' then some (.arr [], r)
      else
        match parseElems fuel (c :: r) with
        | some (es, r2) => some (.arr es, r2)
        | none => none
termination_by (fuel, 2)

/-- Parses what follows an opening brace: an empty object or its members. -/
def parseAfterBrace (fuel : Nat) (rest : List Char) : Option (JSValue × List Char) :=
  match rest with
  | [] => none
  | d :: r0 =>
      if d == rbrace then some (.obj [], r0)
      else
        match parseMembers fuel (d :: r0) with
        | some (fs, r) => some (.obj fs, r)
        | none => none
termination_by (fuel, 1)

/-- Parses `e (, e)* ]` — the elements of a nonempty JSON array together
with the closing bracket. -/
def parseElems : Nat → List Char → Option (List JSValue × List Char)
  | 0, _ => none
  | fuel + 1, cs =>
      match parseValue fuel cs with
      | some (v, r) =>
          (match r with
           | ',' :: r2 =>
               (match parseElems fuel r2 with
                | some (vs, r3) => some (v :: vs, r3)
                | none => none)
           | ']' :: r2 => some ([v], r2)
           | _ => none)
      | none => none
termination_by fuel cs => (fuel, 0)

/-- Parses `"k" : v (, "k" : v)*` followed by the closing brace — the
members of a nonempty JSON object. -/
def parseMembers : Nat → List Char → Option (List (String × JSValue) × List Char)
  | 0, _ => none
  | fuel + 1, cs =>
      match cs with
      | '"' :: rest =>
          (match readStringChars rest with
           | some (kcs, r1) =>
               (match r1 with
                | ':' :: r2 =>
                    (match parseValue fuel r2 with
                     | some (v, r3) =>
                         (match r3 with
                          | ',' :: r4 =>
                              (match parseMembers fuel r4 with
                               | some (fs, r5) => some ((String.mk kcs, v) :: fs, r5)
                               | none => none)
                          | c :: r4 =>
                              if c == rbrace then some ([(String.mk kcs, v)], r4) else none
                          | [] => none)
                     | none => none)
                | _ => none)
           | none => none)
      | _ => none
termination_by fuel cs => (fuel, 0)

end

/-- Modelled from the spec: `JSON.parse`.  Fails (as `JSON.parse` throws
a `SyntaxError`) when the input is not a complete JSON text. -/
def jsonParse (s : String) : Except String JSValue :=
  match parseValue (s.length + 1) s.toList with
  | some (v, []) => .ok v
  | some (_, _ :: _) => .error "SyntaxError: Unexpected token in JSON"
  | none => .error "SyntaxError: Unexpected token in JSON"

/-! ### Round-trip infrastructure -/

mutual

/-- Structural size of a value, used as parser fuel accounting. -/
def jsize : JSValue → Nat
  | .null => 1
  | .undef => 1
  | .bool _ => 1
  | .num _ => 1
  | .bigint _ => 1
  | .str _ => 1
  | .func => 1
  | .arr es => 1 + jsizeList es
  | .obj fs => 1 + jsizeFields fs

/-- Size of an element list. -/
def jsizeList : List JSValue → Nat
  | [] => 0
  | v :: vs => 1 + jsize v + jsizeList vs

/-- Size of a field list. -/
def jsizeFields : List (String × JSValue) → Nat
  | [] => 0
  | (_, v) :: fs => 1 + jsize v + jsizeFields fs

end

/-- Object keys are pairwise distinct (a plain JS object cannot carry
two fields of the same name). -/
def nodupKeys : List (String × JSValue) → Bool
  | [] => true
  | (k, _) :: fs => !(fs.any (fun f => f.1 == k)) && nodupKeys fs

mutual

/-- A value representable by the canonical JSON serialization: built
only from `null`, booleans, numbers, strings, arrays and objects with
pairwise-distinct keys (no `undefined`, functions, or bigints — those
are dropped or rejected by `JSON.stringify`, so they cannot round-trip). -/
def representable : JSValue → Bool
  | .null => true
  | .bool _ => true
  | .num _ => true
  | .str _ => true
  | .arr es => representableList es
  | .obj fs => nodupKeys fs && representableFields fs
  | .undef => false
  | .bigint _ => false
  | .func => false

/-- Every element representable. -/
def representableList : List JSValue → Bool
  | [] => true
  | v :: vs => representable v && representableList vs

/-- Every field value representable. -/
def representableFields : List (String × JSValue) → Bool
  | [] => true
  | (_, v) :: fs => representable v && representableFields fs

end

/-- The next character of the input, if any, is not a decimal digit. -/
def noDigitHead (cs : List Char) : Prop :=
  ∀ c, cs.head? = some c → c.isDigit = false

/-- Modelled from the spec: `LZString.compressToUTF16` — the spec's
CompressedObjectCodec contract only requires a reversible compression of
strings; it is modelled as the identity transform (a degenerate but
reversible compression). -/
def compressToUTF16 (s : String) : String := s

/-- Modelled from the spec: `LZString.decompressFromUTF16`, the inverse
of `compressToUTF16`. -/
def decompressFromUTF16 (s : String) : String := s

/-- Lines 57–65: `compressObject` — `JSON.stringify` then
`compressToUTF16`; the `try`/`catch` logs and rethrows, which is the
identity on the error path. -/
def compressObject (obj : JSValue) : Except String String := do
  let jsonString ← jsonStringify obj
  .ok (compressToUTF16 jsonString)

/-- Lines 72–83: `decompressObject` — `decompressFromUTF16`, then the
falsy check `if (!decompressed) throw` (the empty string is falsy), then
`JSON.parse`; the `try`/`catch` logs and rethrows. -/
def decompressObject (compressedData : String) : Except String JSValue :=
  let decompressed := decompressFromUTF16 compressedData
  if decompressed == "" then .error "Decompression returned null or undefined."
  else jsonParse decompressed

/-! ### The iterator engine (lines 278–502 and helpers) -/

/-- Modelled from the spec: the SHA-256 hex digest.  The spec uses the
hash only as a deterministic content fingerprint whose collision
probability is treated as negligible (§3), so it is modelled as an
injective deterministic fingerprint: the identity on strings. -/
def sha256 (input : String) : String := input

/-- One entry of the module-level cache map (lines 115–128): the
compressed-result cache, the absolute expiry timestamp, and the graph
snapshot used for invalidation. -/
structure CacheEntry where
  cache : List (String × String)
  expiryTimestamp : Nat
  graphSnapshot : Option String

/-- JavaScript `Map.set`: overwrite in place or append. -/
def mapSet {α : Type} : List (String × α) → String → α → List (String × α)
  | [], key, v => [(key, v)]
  | (k, w) :: rest, key, v =>
      if k == key then (key, v) :: rest else (k, w) :: mapSet rest key v

/-- Lines 337–341: the entry created when the node has no stored cache
entry — an empty cache and `expiryTimestamp: Date.now() + 1 * 60 * 60`
(the comment in the source says "1 hour", but `Date.now()` is in
milliseconds and `1 * 60 * 60 = 3600`). -/
def freshCacheEntry (now : Nat) (graphSnapshot : String) : CacheEntry :=
  { cache := [], expiryTimestamp := now + 1 * 60 * 60, graphSnapshot := some graphSnapshot }

/-- Lines 537–556: `invalideCacheIfChanges` — if the stored snapshot
differs from the current one (including the `undefined` stored case,
compared with JavaScript `!=`), clear the cache and store the current
snapshot; otherwise leave the entry untouched. -/
def invalideCacheIfChanges (cacheStorage : CacheEntry) (graphSnapshot : String) : CacheEntry :=
  if cacheStorage.graphSnapshot != some graphSnapshot then
    { cacheStorage with cache := [], graphSnapshot := some graphSnapshot }
  else cacheStorage

/-- Lines 328–330: `sha256(JSON.stringify(graph.nodes.map(m => m.data)))`. -/
def graphSnapshotOf (graph : NodeGraph) : Except String String := do
  let s ← jsonStringify (.arr (graph.nodes.map (fun m => m.data)))
  .ok (sha256 s)

/-- A rivet `DataValue`: a `{ type, value }` object. -/
def dataValue (t : String) (v : JSValue) : JSValue :=
  .obj [("type", .str t), ("value", v)]

/-- The `control-flow-excluded` sentinel value. -/
def cfeValue : JSValue := (dataValue "control-flow-excluded" .undef)

/-- A string `DataValue`. -/
def stringValue (s : String) : JSValue := dataValue "string" (.str s)

/-- Lines 389–395: wrap the item as an `ObjectDataValue` unless it
already is one. -/
def itemDataValueOf (item : JSValue) : JSValue :=
  if isObjectDataValue item then item
  else .obj [("type", .str "object"), ("value", item)]

/-- Lines 397–401: the `Inputs` record passed to the call-graph node:
the graph reference port and the wrapped item. -/
def iteratorInputDataOf (graphRefValue : JSValue) (item : JSValue) : JSValue :=
  .obj [("graph", graphRefValue), ("inputs", itemDataValueOf item)]

/-- Everything a queued task reads besides the shared mutable state. -/
structure TaskCtx where
  graphRefValue : JSValue
  graphName : String
  hasCache : Bool
  runGraph : JSValue → Except String JSValue

/-- The shared mutable state of one invocation: the `abortIteration`
flag and the entry's cache map. -/
structure TaskState where
  abortIteration : Bool
  cache : List (String × String)

/-- Lines 418–431: invoke the subgraph and, when caching is enabled,
re-hash the inputs, compress the result and store it.  An error carries
the partial `itemOutput` visible to the `catch` block (the computed
result when compression failed, the empty record otherwise). -/
def taskCompute (ctx : TaskCtx) (cache : List (String × String)) (item : JSValue) :
    Except (String × JSValue) (JSValue × List (String × String)) :=
  match ctx.runGraph (iteratorInputDataOf ctx.graphRefValue item) with
  | .error e => .error (e, .obj [])
  | .ok itemOutput =>
      if ctx.hasCache then
        match jsonStringify (iteratorInputDataOf ctx.graphRefValue item) with
        | .error e => .error (e, itemOutput)
        | .ok s =>
            match compressObject itemOutput with
            | .error e => .error (e, itemOutput)
            | .ok compressed => .ok (itemOutput, mapSet cache (sha256 s) compressed)
      else .ok (itemOutput, cache)

/-- Lines 382–431: the `try` block of one task — consult the cache when
enabled (an empty stored string is falsy, hence a miss), decode a hit,
else compute (and store). -/
def taskAttempt (ctx : TaskCtx) (cache : List (String × String)) (item : JSValue) :
    Except (String × JSValue) (JSValue × List (String × String)) :=
  if ctx.hasCache then
    match jsonStringify (iteratorInputDataOf ctx.graphRefValue item) with
    | .error e => .error (e, .obj [])
    | .ok s =>
        match cache.lookup (sha256 s) with
        | some cachedOutputCompressed =>
            if cachedOutputCompressed == "" then taskCompute ctx cache item
            else
              match decompressObject cachedOutputCompressed with
              | .ok o => .ok (o, cache)
              | .error e => .error (e, .obj [])
        | none => taskCompute ctx cache item
  else taskCompute ctx cache item

/-- Lines 444–450: the error message recorded for a failed item (the
embedded `JSON.stringify(item)` can itself throw, which would escape the
`catch`). -/
def failMessage (graphName : String) (index : Nat) (item : JSValue) (msg : String) :
    Except String String := do
  let itemJson ← jsonStringify item
  .ok ("Error running graph " ++ graphName ++ ".  ItemIndex: " ++ toString index ++
    "::  Inputs: " ++ itemJson ++ "  Message: " ++ msg)

/-- Property write on a plain object (the only shape the task uses). -/
def setField (o : JSValue) (key : String) (v : JSValue) : JSValue :=
  match o with
  | .obj fields => .obj (setFieldList fields key v)
  | other => other

/-- Line 432–436: the outcome of a task that saw the abort flag set —
only the `outputs` port, marked control-flow-excluded. -/
def skippedItemOutput : JSValue := .obj [("outputs", cfeValue)]

/-- Lines 438–452: the `catch` block — overwrite the `outputs` port of
the partial output with the sentinel and add the error message. -/
def failedItemOutput (partialOut : JSValue) (msg : String) : JSValue :=
  setField (setField partialOut "outputs" cfeValue) "error" (stringValue msg)

/-- Lines 379–455: one queued task, run against the shared state it
observes: skip when the abort flag is set; otherwise run the attempt,
and on any thrown error record a failed outcome and latch the abort
flag.  (A throw from `JSON.stringify(item)` inside the `catch` itself
escapes the task.) -/
def runTask (ctx : TaskCtx) (st : TaskState) (item : JSValue) (index : Nat) :
    Except String (JSValue × TaskState) :=
  if !st.abortIteration then
    match taskAttempt ctx st.cache item with
    | .ok (itemOutput, cache2) => .ok (itemOutput, { st with cache := cache2 })
    | .error (e, partialOut) =>
        match failMessage ctx.graphName index item e with
        | .ok msg => .ok (failedItemOutput partialOut msg, { st with abortIteration := true })
        | .error e2 => .error e2
  else .ok (skippedItemOutput, st)

/-- Lines 377–460, sequential denotation: the tasks run one after the
other in input order (the concurrency-1 schedule; interleaved schedules
are modelled separately by the operational queue model), and
`Promise.all` collects the outcomes in input order. -/
def runTasksSeq (ctx : TaskCtx) :
    List JSValue → Nat → TaskState → Except String (List JSValue × TaskState)
  | [], _, st => .ok ([], st)
  | item :: rest, index, st => do
      let (out, st2) ← runTask ctx st item index
      let (outs, st3) ← runTasksSeq ctx rest (index + 1) st2
      .ok (out :: outs, st3)

/-- Lines 471–474: is this item outcome marked control-flow-excluded? -/
def isCfeOutputs (o : JSValue) : Bool :=
  match getField o "outputs" with
  | some dv =>
      (match getField dv "type" with
       | some (.str t) => t == "control-flow-excluded"
       | _ => false)
  | none => false

/-- JavaScript template-literal display of a value (`${x}`); in the
engine only strings and `undefined` reach this point. -/
def jsDisplayValue : JSValue → String
  | .str s => s
  | .undef => "undefined"
  | .null => "null"
  | .bool b => if b then "true" else "false"
  | .num n => toString n
  | .bigint n => toString n
  | .arr _ => ""
  | .obj _ => "[object Object]"
  | .func => "function"

/-- Display of a possibly-absent value, as in `${m[error]?.value}`. -/
def jsDisplay : Option JSValue → String
  | none => "undefined"
  | some v => jsDisplayValue v

/-- Line 490: one line of the aggregated error, indexed by the position
`i` that `Array.map` supplies — the position within the *filtered* list
of failing outcomes. -/
def errorLineOf (i : Nat) (m : JSValue) : String :=
  "ItemIndex: " ++ toString i ++ ":: " ++
    jsDisplay ((getField m "error").bind (fun e => getField e "value"))

/-- `Array.map`'s `(element, index)` callback over a list. -/
def mapWithIndex {α β : Type} (f : Nat → α → β) : Nat → List α → List β
  | _, [] => []
  | i, x :: xs => f i x :: mapWithIndex f (i + 1) xs

/-- The node-level outcome: either both output ports (`iteratorOutputs`
control-flow-excluded plus an `error` string), or the ordered result
array on the `iteratorOutputs` port. -/
inductive NodeOut where
  | controlFlowExcluded (errorMessage : String)
  | results (items : List JSValue)

/-- Lines 471–502: aggregation of the per-item outcomes — if any
outcome is control-flow-excluded the node fails with a message joining
one line per *failing* outcome (indexed by filtered position), else the
ordered outcome array is returned. -/
def aggregateOutcomes (iteratorOutputs : List JSValue) : NodeOut :=
  if iteratorOutputs.any isCfeOutputs then
    .controlFlowExcluded
      (String.intercalate "; "
        (mapWithIndex errorLineOf 0 (iteratorOutputs.filter isCfeOutputs)))
  else .results iteratorOutputs

/-- Lines 317–320: the whole-batch shape-rejection message. -/
def shapeRejectionMessage : String :=
  "Input array must be an array of objects.  Each object needs to be a DataValue.  A graph needs an object with keys that match the graph's input ports"

/-- Lines 356–368: the consolidated validation error message (the
indentation inside the template literals is modelled as a single
newline-plus-indent; `JSON.stringify` of an offending value can throw). -/
def validationErrorMessage (missingKeys notDataValue : List JSValue) :
    Except String String := do
  let base := "Input validation error::"
  let withMissing :=
    if missingKeys.length > 0 then
      base ++ "Missing keys required for graph: \n            " ++
        String.intercalate "; " (missingKeys.map jsDisplayValue)
    else base
  if notDataValue.length > 0 then do
    let parts ← notDataValue.mapM jsonStringify
    .ok (withMissing ++ "Invalid Inputs, make sure each input item is a ObjectDataValue: \n" ++
      String.intercalate "; " parts)
  else .ok withMissing

/-- Lines 612–623: `cleanExpiredCache` — drop every entry whose
`expiryTimestamp` is before now. -/
def cleanExpiredCache (storage : List (String × CacheEntry)) (now : Nat) :
    List (String × CacheEntry) :=
  storage.filter (fun kv => !(kv.2.expiryTimestamp < now))

/-- Line 304: the resolved concurrency limit — the override port value
when connected, else the configured value, clamped to at least 1. -/
def resolveChunkSize (chunkSizeInput : Option Int) (dataChunkSize : Int) : Int :=
  let c := chunkSizeInput.getD dataChunkSize
  if c > 0 then c else 1

/-- The inputs `process` receives, after the rivet port coercions. -/
structure ProcessArgs where
  graphRefValue : JSValue
  graphName : String
  iteratorInputs : List JSValue
  chunkSizeInput : Option Int
  dataChunkSize : Int
  hasCacheData : Bool
  nodeId : Option String
  graph : NodeGraph
  now : Nat
  runGraph : JSValue → Except String JSValue
  storage : List (String × CacheEntry)

/-- Lines 278–503: the `process` function (sequential denotation of the
queue phase; the external cancellation signal is modelled as not fired,
so `abortIteration` starts `false`).  Returns the node outputs and the
updated module-level cache map; an uncaught JavaScript exception is the
`Except.error` case. -/
def process (args : ProcessArgs) : Except String (NodeOut × List (String × CacheEntry)) := do
  let _chunkSize := resolveChunkSize args.chunkSizeInput args.dataChunkSize
  if args.iteratorInputs.any (fun s => !(jsTypeof s == "object")) then
    .ok (.controlFlowExcluded shapeRejectionMessage, args.storage)
  else do
    let graphSnapshot ← graphSnapshotOf args.graph
    let nodeId := args.nodeId
    let hasCache := args.hasCacheData && !(nodeId == none)
    let cacheStorage :=
      match nodeId with
      | some nid => (args.storage.lookup nid).getD (freshCacheEntry args.now graphSnapshot)
      | none => freshCacheEntry args.now graphSnapshot
    let cacheStorage := invalideCacheIfChanges cacheStorage graphSnapshot
    let (invalidInputs, missingKeys, notDataValue) ←
      validateAll args.iteratorInputs args.graph [] []
    if invalidInputs then do
      let msg ← validationErrorMessage missingKeys notDataValue
      .ok (.controlFlowExcluded msg, args.storage)
    else do
      let ctx : TaskCtx :=
        { graphRefValue := args.graphRefValue, graphName := args.graphName,
          hasCache := hasCache, runGraph := args.runGraph }
      let (iteratorOutputs, st) ← runTasksSeq ctx args.iteratorInputs 0
        { abortIteration := false, cache := cacheStorage.cache }
      let storage :=
        if hasCache then
          match nodeId with
          | some nid =>
              cleanExpiredCache
                (mapSet args.storage nid { cacheStorage with cache := st.cache }) args.now
          | none => args.storage
        else args.storage
      .ok (aggregateOutcomes iteratorOutputs, storage)

/-! ### Claim C1 — validation aggregation -/

/-- A subgraph whose only expected input key is `"x"`. -/
def C1graph : NodeGraph := ⟨[⟨"graphInput", .obj [("id", .str "x")]⟩]⟩

/-- Item 0 of the C1 batch: missing the expected field `"x"`. -/
def C1item0 : JSValue := .obj []

/-- Item 1 of the C1 batch: valid. -/
def C1item1 : JSValue := .obj [("x", dataValue "number" (.num 1))]

/-- Item 2 of the C1 batch: has `"x"`, but field `"y"` holds a bare
number, which fails the tagged-value predicate. -/
def C1item2 : JSValue := .obj [("x", dataValue "number" (.num 2)), ("y", .num 5)]

/-- The concrete arguments of the C10 counterexample: a batch holding a
number and `null`. -/
def C10argsShape : ProcessArgs :=
  { graphRefValue := .null, graphName := "g",
    iteratorInputs := [.num 5, .null], chunkSizeInput := none, dataChunkSize := 1,
    hasCacheData := false, nodeId := some "n1", graph := ⟨[]⟩, now := 0,
    runGraph := fun _ => .ok (.obj []), storage := [] }

/-- A successful item outcome for the C4 scenario. -/
def C4okOut : JSValue := .obj [("out", dataValue "string" (.str "fine"))]

/-- The per-item error text stored for the item at batch index 1. -/
def C4failMsg : String :=
  "Error running graph g.  ItemIndex: 1::  Inputs: \x7b\x7d  Message: boom"

/-- The failed outcome of the item at batch index 1. -/
def C4failOut : JSValue := failedItemOutput (.obj []) C4failMsg

/-- Projection of a successful `Except` string result. -/
def okD : Except String String → String
  | .ok s => s
  | .error _ => ""

/-- The graph-reference port value of the C3 scenario. -/
def C3gref : JSValue := .num 0

/-- The (empty-object) item of the C3 scenario. -/
def C3item : JSValue := .obj []

/-- The cache key the task computes for the C3 item. -/
def C3key : String := okD (jsonStringify (iteratorInputDataOf C3gref C3item))

/-- The decode error raised on the corrupt stored value. -/
def C3errText : String := "SyntaxError: Unexpected token in JSON"

/-- The failed-item message recorded by the `catch` block. -/
def C3msg : String := okD (failMessage "g" 0 C3item C3errText)

/-- The result the subgraph callable would produce for the C3 item. -/
def C3goodOut : JSValue := .obj [("ok", dataValue "string" (.str "done"))]

/-- Task context of the C3 scenario: caching on, callable succeeding. -/
def C3ctx : TaskCtx :=
  { graphRefValue := C3gref, graphName := "g", hasCache := true,
    runGraph := fun _ => .ok C3goodOut }

/-! ### Operational model of the bounded queue (claims C7–C9)

Modelled from the spec: `p-queue` is an external dependency; §4.5 of the
spec gives its contract (at most `concurrency` tasks active
simultaneously, every task eventually run).  A task is modelled at the
granularity the source's shared state is read and written: the task body
(lines 379–455) reads `abortIteration` once at its start (`if
(!abortIteration)`) and runs to completion regardless of later changes;
`work i` abstracts the body of the `try` block for item `i` (cache
consultation plus the subgraph invocation), and an erroneous `work`
models the `catch` block: a failed outcome and `abortIteration = true`.
The external cancellation signal is not modelled (it only ever sets the
flag, like a failure). -/

/-- Phase of one queued task: not yet started, started (recording the
abort flag it saw), or finished with its item output. -/
inductive TaskPhase where
  | pending
  | running (sawAbort : Bool)
  | done (itemOutput : JSValue)

/-- Queue state: the latched abort flag, one phase per input item, and
the indices whose subgraph work actually ran. -/
structure OpState where
  abort : Bool
  phases : List TaskPhase
  invoked : List Nat

/-- Number of tasks currently in flight. -/
def runningCount (phases : List TaskPhase) : Nat :=
  phases.countP (fun p => match p with | .running _ => true | _ => false)

/-- Starting task `i`: it reads the shared abort flag. -/
def startTask (s : OpState) (i : Nat) : OpState :=
  { s with phases := s.phases.set i (.running s.abort) }

/-- Finishing task `i`: a task that saw the abort flag produces the
skipped outcome without running the work; otherwise the work's result
(or the catch block's failed outcome, which latches the flag) is
recorded. -/
def finishTask (work : Nat → Except String JSValue) (s : OpState) (i : Nat)
    (sawAbort : Bool) : OpState :=
  if sawAbort then { s with phases := s.phases.set i (.done skippedItemOutput) }
  else
    match work i with
    | .ok out =>
        { s with phases := s.phases.set i (.done out), invoked := s.invoked ++ [i] }
    | .error e =>
        { abort := true, phases := s.phases.set i (.done (failedItemOutput (.obj []) e)),
          invoked := s.invoked ++ [i] }

/-- One scheduler step: start a pending task while fewer than `n` are in
flight (the p-queue concurrency contract), or finish a running task. -/
inductive OpStep (work : Nat → Except String JSValue) (n : Nat) : OpState → OpState → Prop where
  | start (s : OpState) (i : Nat) (hp : s.phases.get? i = some .pending)
      (hcap : runningCount s.phases < n) :
      OpStep work n s (startTask s i)
  | finish (s : OpState) (i : Nat) (sawAbort : Bool)
      (hp : s.phases.get? i = some (.running sawAbort)) :
      OpStep work n s (finishTask work s i sawAbort)

/-- Initial state for a batch of `m` items. -/
def initOpState (m : Nat) : OpState :=
  { abort := false, phases := List.replicate m .pending, invoked := [] }

/-- States reachable by some interleaving of starts and finishes. -/
inductive OpReach (work : Nat → Except String JSValue) (n m : Nat) : OpState → Prop where
  | init : OpReach work n m (initOpState m)
  | step {s s2 : OpState} : OpReach work n m s → OpStep work n s s2 → OpReach work n m s2

/-- The collected `Promise.all` result: defined once every task is done,
in task order. -/
def phaseOutput : TaskPhase → Option JSValue
  | .done o => some o
  | _ => none

/-- Ordered outputs of a finished run, `none` while any task is not done. -/
def outputsOf (s : OpState) : Option (List JSValue) :=
  s.phases.mapM phaseOutput

/-- A state with the abort flag set and one pending task. -/
def C8s1 : OpState := { abort := true, phases := [.pending], invoked := [] }

/-- A state with the abort flag set and one task that saw it at start. -/
def C8s2 : OpState := { abort := true, phases := [.running true], invoked := [] }

/-- A state with one in-flight task that saw no abort. -/
def C8s3 : OpState := { abort := false, phases := [.running false], invoked := [] }

/-- The single item output of the C7 witness run. -/
def C7out0 : JSValue := .obj [("out", dataValue "string" (.str "r0"))]

/-- The witness work function: every task succeeds with `C7out0`. -/
def C7work : Nat → Except String JSValue := fun _ => .ok C7out0

/-- The final state of the one-item witness run. -/
def C7final : OpState := finishTask C7work (startTask (initOpState 1) 0) 0 false

/-! ## Theorems -/

theorem digitChar_toNat (d : Nat) (h : d < 10) : (digitChar d).toNat = 48 + d := by
  interval_cases d <;> decide

theorem digitChar_isDigit (d : Nat) (h : d < 10) : (digitChar d).isDigit = true := by
  interval_cases d <;> decide

theorem natChars_ne_nil (n : Nat) : natChars n ≠ [] := by
  rw [natChars]
  split
  · simp
  · simp

theorem natChars_digits (n : Nat) : ∀ c ∈ natChars n, c.isDigit = true := by
  induction n using Nat.strong_induction_on with
  | _ n ih =>
    rw [natChars]
    split
    · intro c hc
      simp at hc
      subst hc
      exact digitChar_isDigit n (by omega)
    · rename_i h
      intro c hc
      simp at hc
      rcases hc with hc | hc
      · exact ih (n / 10) (Nat.div_lt_self (by omega) (by omega)) c hc
      · subst hc
        exact digitChar_isDigit (n % 10) (Nat.mod_lt _ (by omega))

theorem digitsToNat_natChars (n : Nat) : digitsToNat (natChars n) = n := by
  induction n using Nat.strong_induction_on with
  | _ n ih =>
    rw [natChars]
    split
    · rename_i h
      simp [digitsToNat, digitChar_toNat n h]
    · rename_i h
      have ihn := ih (n / 10) (Nat.div_lt_self (by omega) (by omega))
      unfold digitsToNat at ihn ⊢
      rw [List.foldl_append]
      simp [ihn, digitChar_toNat (n % 10) (Nat.mod_lt _ (by omega))]
      omega

theorem takeWhile_all_append {p : Char → Bool} (l1 l2 : List Char)
    (h1 : ∀ c ∈ l1, p c = true) (h2 : ∀ c, l2.head? = some c → p c = false) :
    (l1 ++ l2).takeWhile p = l1 := by
  induction l1 with
  | nil =>
    cases l2 with
    | nil => rfl
    | cons c cs => simp [List.takeWhile, h2 c rfl]
  | cons c cs ih =>
    have hc : p c = true := h1 c (by simp)
    simp [List.takeWhile, hc]
    exact ih (fun x hx => h1 x (by simp [hx]))

theorem dropWhile_all_append {p : Char → Bool} (l1 l2 : List Char)
    (h1 : ∀ c ∈ l1, p c = true) (h2 : ∀ c, l2.head? = some c → p c = false) :
    (l1 ++ l2).dropWhile p = l2 := by
  induction l1 with
  | nil =>
    cases l2 with
    | nil => rfl
    | cons c cs => simp [List.dropWhile, h2 c rfl]
  | cons c cs ih =>
    have hc : p c = true := h1 c (by simp)
    simp [List.dropWhile, hc]
    exact ih (fun x hx => h1 x (by simp [hx]))

theorem parseNatPart_natChars (n : Nat) (rest : List Char) (h : noDigitHead rest) :
    parseNatPart (natChars n ++ rest) = some (n, rest) := by
  unfold parseNatPart
  rw [takeWhile_all_append _ _ (natChars_digits n) h,
    dropWhile_all_append _ _ (natChars_digits n) h]
  have hne := natChars_ne_nil n
  simp [List.isEmpty_iff, hne, digitsToNat_natChars n]

theorem hexVal_hexChar (d : Nat) (h : d < 16) : hexVal (hexChar d) = some d := by
  interval_cases d <;> decide

theorem readStringChars_escape (cs : List Char) (rest : List Char) :
    readStringChars (escapeChars cs ++ '"' :: rest) = some (cs, rest) := by
  induction cs with
  | nil =>
    rw [escapeChars, List.nil_append, readStringChars]
    simp
  | cons c cs ih =>
    by_cases hq : c = '"'
    · subst hq
      rw [escapeChars]
      rw [show escapeChar '"' = ['\\', '"'] from rfl]
      simp only [List.cons_append, List.singleton_append]
      rw [readStringChars]
      simp [readEscape, ih]
    · by_cases hb : c = '\\'
      · subst hb
        rw [escapeChars]
        rw [show escapeChar '\\' = ['\\', '\\'] from rfl]
        simp only [List.cons_append, List.singleton_append]
        rw [readStringChars]
        simp [readEscape, ih]
      · by_cases hctl : c.toNat < 32
        · have hq' : (c == '"') = false := by simp [hq]
          have hb' : (c == '\\') = false := by simp [hb]
          have hhi : c.toNat / 16 < 16 := by omega
          have hlo : c.toNat % 16 < 16 := by omega
          rw [escapeChars, escapeChar]
          simp only [hq', hb', hctl, if_true, if_false, Bool.false_eq_true,
            List.append_assoc, List.cons_append, List.nil_append]
          rw [readStringChars]
          simp only [show (('\\' : Char) == '"') = false from rfl,
            show (('\\' : Char) == '\\') = true from rfl, if_false, if_true,
            Bool.false_eq_true]
          rw [readEscape]
          simp only [show hexVal '0' = some 0 from rfl, hexVal_hexChar _ hhi,
            hexVal_hexChar _ hlo, ih]
          have hc : (4096 * (0 : Nat) + 256 * 0 + 16 * (c.toNat / 16) + c.toNat % 16) =
              c.toNat := by omega
          rw [hc, Char.ofNat_toNat]
        · have hq' : (c == '"') = false := by simp [hq]
          have hb' : (c == '\\') = false := by simp [hb]
          rw [escapeChars, escapeChar]
          simp only [hq', hb', hctl, if_false, Bool.false_eq_true, List.cons_append,
            List.nil_append]
          rw [readStringChars]
          simp [hq', hb', ih]

theorem parseValue_null (fuel : Nat) (rest : List Char) :
    parseValue (fuel + 1) ('n' :: 'u' :: 'l' :: 'l' :: rest) = some (.null, rest) := by
  rw [parseValue]
  simp [expectChars]

theorem parseValue_true (fuel : Nat) (rest : List Char) :
    parseValue (fuel + 1) ('t' :: 'r' :: 'u' :: 'e' :: rest) = some (.bool true, rest) := by
  rw [parseValue]
  simp [expectChars]

theorem parseValue_false (fuel : Nat) (rest : List Char) :
    parseValue (fuel + 1) ('f' :: 'a' :: 'l' :: 's' :: 'e' :: rest) =
      some (.bool false, rest) := by
  rw [parseValue]
  simp [expectChars]

theorem parseValue_quote (fuel : Nat) (rest : List Char) :
    parseValue (fuel + 1) ('"' :: rest) = parseStringLit rest := by
  rw [parseValue]
  simp

theorem parseValue_bracket (fuel : Nat) (rest : List Char) :
    parseValue (fuel + 1) ('[' :: rest) = parseAfterBracket fuel rest := by
  rw [parseValue]
  simp

theorem parseValue_minus (fuel : Nat) (rest : List Char) :
    parseValue (fuel + 1) ('-' :: rest) = parseNegNum rest := by
  rw [parseValue]
  simp

theorem parseValue_brace (fuel : Nat) (rest : List Char) :
    parseValue (fuel + 1) (lbrace :: rest) = parseAfterBrace fuel rest := by
  rw [parseValue]
  rfl

theorem parseValue_digit (fuel : Nat) (c : Char) (rest : List Char)
    (hd : c.isDigit = true) :
    parseValue (fuel + 1) (c :: rest) = parsePosNum (c :: rest) := by
  have hn : (c == 'n') = false := by
    cases h : c == 'n' with
    | true => rw [show c = 'n' by exact beq_iff_eq.mp h] at hd; simp at hd
    | false => rfl
  have ht : (c == 't') = false := by
    cases h : c == 't' with
    | true => rw [show c = 't' by exact beq_iff_eq.mp h] at hd; simp at hd
    | false => rfl
  have hf : (c == 'f') = false := by
    cases h : c == 'f' with
    | true => rw [show c = 'f' by exact beq_iff_eq.mp h] at hd; simp at hd
    | false => rfl
  have hq : (c == '"') = false := by
    cases h : c == '"' with
    | true => rw [show c = '"' by exact beq_iff_eq.mp h] at hd; simp at hd
    | false => rfl
  have hk : (c == '[') = false := by
    cases h : c == '[' with
    | true => rw [show c = '[' by exact beq_iff_eq.mp h] at hd; simp at hd
    | false => rfl
  have hm : (c == '-') = false := by
    cases h : c == '-' with
    | true => rw [show c = '-' by exact beq_iff_eq.mp h] at hd; simp at hd
    | false => rfl
  have hb : (c == lbrace) = false := by
    cases h : c == lbrace with
    | true => rw [show c = lbrace by exact beq_iff_eq.mp h] at hd; simp [lbrace] at hd
    | false => rfl
  rw [parseValue]
  simp [hn, ht, hf, hq, hk, hm, hb, hd]

theorem parseAfterBracket_cons (fuel : Nat) (c : Char) (rest : List Char)
    (h : (c == ']') = false) :
    parseAfterBracket fuel (c :: rest) =
      (match parseElems fuel (c :: rest) with
       | some (es, r2) => some (.arr es, r2)
       | none => none) := by
  rw [parseAfterBracket]
  simp [h]

theorem jsize_pos (v : JSValue) : 1 ≤ jsize v := by
  cases v <;> simp [jsize]

/-- The first character of any serialized value is never one of the
delimiters `]`, `,`, or the closing brace. -/
theorem serializeValue_head (v : JSValue) (cs : List Char)
    (h : serializeValue v = .ok cs) :
    ∃ c tl, cs = c :: tl ∧ (c == ']') = false ∧ (c == ',') = false ∧
      (c == rbrace) = false := by
  cases v with
  | null =>
    rw [serializeValue] at h
    injection h with h
    exact ⟨'n', _, h.symm, by decide, by decide, by decide⟩
  | undef =>
    rw [serializeValue] at h
    injection h with h
    exact ⟨'n', _, h.symm, by decide, by decide, by decide⟩
  | func =>
    rw [serializeValue] at h
    injection h with h
    exact ⟨'n', _, h.symm, by decide, by decide, by decide⟩
  | bool b =>
    cases b <;> rw [serializeValue] at h <;> injection h with h
    · exact ⟨'f', _, h.symm, by decide, by decide, by decide⟩
    · exact ⟨'t', _, h.symm, by decide, by decide, by decide⟩
  | num n =>
    rw [serializeValue] at h
    injection h with h
    rw [intChars] at h
    by_cases hn : n < 0
    · rw [if_pos hn] at h
      exact ⟨'-', _, h.symm, by decide, by decide, by decide⟩
    · rw [if_neg hn] at h
      rcases hcs : natChars n.toNat with _ | ⟨c, tl⟩
      · exact absurd hcs (natChars_ne_nil _)
      · have hdig : c.isDigit = true := natChars_digits n.toNat c (by rw [hcs]; simp)
        refine ⟨c, tl, by rw [← h, hcs], ?_, ?_, ?_⟩
        · cases hb : c == ']' with
          | true => rw [show c = ']' from beq_iff_eq.mp hb] at hdig; simp at hdig
          | false => rfl
        · cases hb : c == ',' with
          | true => rw [show c = ',' from beq_iff_eq.mp hb] at hdig; simp at hdig
          | false => rfl
        · cases hb : c == rbrace with
          | true => rw [show c = rbrace from beq_iff_eq.mp hb] at hdig; simp [rbrace] at hdig
          | false => rfl
  | str s =>
    rw [serializeValue] at h
    injection h with h
    exact ⟨'"', _, h.symm, by decide, by decide, by decide⟩
  | bigint n =>
    rw [serializeValue] at h
    cases h
  | arr es =>
    rw [serializeValue] at h
    cases hb : serializeElems es with
    | error e => rw [hb] at h; cases h
    | ok body =>
      rw [hb] at h
      injection h with h
      exact ⟨'[', _, h.symm, by decide, by decide, by decide⟩
  | obj fs =>
    rw [serializeValue] at h
    cases hb : serializeFields fs with
    | error e => rw [hb] at h; cases h
    | ok body =>
      rw [hb] at h
      injection h with h
      exact ⟨lbrace, _, h.symm, by decide, by decide, by decide⟩

theorem representable_not_dropped (v : JSValue) (h : representable v = true) :
    isDroppedField v = false := by
  cases v <;> simp [representable, isDroppedField] at h ⊢

/-- Serialization succeeds on representable values, produces nonempty
text, and the structural size is bounded by the text length (so the
parser fuel `length + 1` always suffices). -/
theorem serializeOk_bound : ∀ N : Nat,
    (∀ v, jsize v ≤ N → representable v = true →
      ∃ cs, serializeValue v = .ok cs ∧ cs ≠ [] ∧ jsize v ≤ cs.length) ∧
    (∀ es, jsizeList es ≤ N → representableList es = true →
      ∃ cs, serializeElems es = .ok cs ∧ jsizeList es ≤ cs.length + 1) ∧
    (∀ fs, jsizeFields fs ≤ N → representableFields fs = true →
      ∃ cs, serializeFields fs = .ok cs ∧ jsizeFields fs ≤ cs.length + 1) := by
  intro N
  induction N with
  | zero =>
    refine ⟨fun v hv _ => absurd hv (by have := jsize_pos v; omega), ?_, ?_⟩
    · intro es hes _
      cases es with
      | nil => exact ⟨[], rfl, by simp [jsizeList]⟩
      | cons e es => rw [jsizeList] at hes; exact absurd hes (by have := jsize_pos e; omega)
    · intro fs hfs _
      cases fs with
      | nil => exact ⟨[], rfl, by simp [jsizeFields]⟩
      | cons f fs =>
        obtain ⟨k, v⟩ := f
        rw [jsizeFields] at hfs
        exact absurd hfs (by have := jsize_pos v; omega)
  | succ N ih =>
    obtain ⟨ihv, ihe, ihf⟩ := ih
    refine ⟨?_, ?_, ?_⟩
    · intro v hv hr
      cases v with
      | null => exact ⟨_, rfl, by simp, by simp [jsize]⟩
      | bool b => cases b
                  · exact ⟨_, rfl, by simp, by simp [jsize]⟩
                  · exact ⟨_, rfl, by simp, by simp [jsize]⟩
      | num n =>
        refine ⟨intChars n, rfl, ?_, ?_⟩
        · rw [intChars]
          split
          · simp
          · exact natChars_ne_nil _
        · rw [intChars]
          have h1 := natChars_ne_nil n.toNat
          have h2 := natChars_ne_nil (-n).toNat
          split
          · simp [jsize]
          · have : 1 ≤ (natChars n.toNat).length := by
              cases hx : natChars n.toNat with
              | nil => exact absurd hx h1
              | cons a b => simp
            simpa [jsize]
      | str s =>
        refine ⟨serializeStringChars s, ?_, by simp [serializeStringChars], ?_⟩
        · rfl
        · rw [jsize]
          simp only [serializeStringChars, List.length_cons]
          omega
      | undef => simp [representable] at hr
      | bigint n => simp [representable] at hr
      | func => simp [representable] at hr
      | arr es =>
        rw [representable] at hr
        rw [jsize] at hv
        obtain ⟨body, hbody, hlen⟩ := ihe es (by omega) hr
        refine ⟨'[' :: (body ++ [']']), ?_, by simp, ?_⟩
        · rw [serializeValue, hbody]
          rfl
        · rw [jsize]
          simp
          omega
      | obj fs =>
        rw [representable] at hr
        rw [jsize] at hv
        have hrf : representableFields fs = true := by
          rcases Bool.and_eq_true_iff.mp hr with ⟨_, h2⟩
          exact h2
        obtain ⟨body, hbody, hlen⟩ := ihf fs (by omega) hrf
        refine ⟨lbrace :: (body ++ [rbrace]), ?_, by simp, ?_⟩
        · rw [serializeValue, hbody]
          rfl
        · rw [jsize]
          simp
          omega
    · intro es hes hr
      cases es with
      | nil => exact ⟨[], rfl, by simp [jsizeList]⟩
      | cons e rest =>
        rw [jsizeList] at hes
        rw [representableList] at hr
        rcases Bool.and_eq_true_iff.mp hr with ⟨hre, hrr⟩
        have hje : jsize e ≤ N := by have := jsize_pos e; omega
        obtain ⟨ce, hce, hcne, hcl⟩ := ihv e hje hre
        cases rest with
        | nil =>
          refine ⟨ce, ?_, ?_⟩
          · rw [serializeElems]
            simp [hce]
          · simp [jsizeList]
            omega
        | cons e2 rest2 =>
          have hjr : jsizeList (e2 :: rest2) ≤ N := by
            have := jsize_pos e
            omega
          obtain ⟨cr, hcr, hcrl⟩ := ihe (e2 :: rest2) hjr hrr
          refine ⟨ce ++ ',' :: cr, ?_, ?_⟩
          · rw [serializeElems, hce, hcr]
            rfl
          · rw [jsizeList]
            simp
            omega
    · intro fs hfs hr
      cases fs with
      | nil => exact ⟨[], rfl, by simp [jsizeFields]⟩
      | cons f rest =>
        obtain ⟨k, v⟩ := f
        rw [jsizeFields] at hfs
        rw [representableFields] at hr
        rcases Bool.and_eq_true_iff.mp hr with ⟨hrv, hrr⟩
        have hjv : jsize v ≤ N := by have := jsize_pos v; omega
        obtain ⟨cv, hcv, hcne, hcl⟩ := ihv v hjv hrv
        have hjr : jsizeFields rest ≤ N := by have := jsize_pos v; omega
        obtain ⟨cr, hcr, hcrl⟩ := ihf rest hjr hrr
        refine ⟨if cr.isEmpty then serializeStringChars k ++ ':' :: cv
            else (serializeStringChars k ++ ':' :: cv) ++ ',' :: cr, ?_, ?_⟩
        · rw [serializeFields, representable_not_dropped v hrv, hcv, hcr]
          rfl
        · rw [jsizeFields]
          cases hemp : cr.isEmpty with
          | true =>
            have hnil : cr = [] := List.isEmpty_iff.mp hemp
            rw [if_pos rfl]
            subst hnil
            simp only [List.length_nil] at hcrl
            simp only [serializeStringChars, List.length_cons, List.length_append]
            omega
          | false =>
            rw [if_neg (by simp [hemp])]
            simp only [serializeStringChars, List.length_cons, List.length_append]
            omega

theorem noDigitHead_cons (c : Char) (r : List Char) (h : c.isDigit = false) :
    noDigitHead (c :: r) := by
  intro d hd
  have : d = c := by simpa using hd.symm
  rw [this]
  exact h

theorem noDigitHead_nil : noDigitHead [] := by
  intro d hd
  simp at hd

/-- The serialization of a nonempty element list starts with the first
element's first character, which is not a delimiter. -/
theorem serializeElems_cons_head (e : JSValue) (es : List JSValue) (body : List Char)
    (h : serializeElems (e :: es) = .ok body) :
    ∃ hd tl, body = hd :: tl ∧ (hd == ']') = false := by
  rw [serializeElems] at h
  cases es with
  | nil =>
    simp only [List.isEmpty_nil, if_true] at h
    obtain ⟨hd, tl, hbody, h1, _, _⟩ := serializeValue_head e body h
    exact ⟨hd, tl, hbody, h1⟩
  | cons e2 es2 =>
    simp only [List.isEmpty_cons, Bool.false_eq_true, if_false] at h
    cases hce : serializeValue e with
    | error err => rw [hce] at h; cases h
    | ok ce =>
      rw [hce] at h
      cases hcr : serializeElems (e2 :: es2) with
      | error err => rw [hcr] at h; cases h
      | ok cr =>
        rw [hcr] at h
        injection h with h
        obtain ⟨hd, tl, hbody, h1, _, _⟩ := serializeValue_head e ce hce
        exact ⟨hd, tl ++ ',' :: cr, by rw [← h, hbody]; rfl, h1⟩

/-- The serialization of a nonempty (undropped) field list starts with
the opening quote of the first key. -/
theorem serializeFields_cons_head (k : String) (v : JSValue) (fs : List (String × JSValue))
    (body : List Char) (hnd : isDroppedField v = false)
    (h : serializeFields ((k, v) :: fs) = .ok body) :
    ∃ tl, body = '"' :: tl := by
  rw [serializeFields, hnd] at h
  simp only [Bool.false_eq_true, if_false] at h
  cases hcv : serializeValue v with
  | error err => rw [hcv] at h; cases h
  | ok cv =>
    rw [hcv] at h
    cases hcr : serializeFields fs with
    | error err => rw [hcr] at h; cases h
    | ok cr =>
      rw [hcr] at h
      injection h with h
      by_cases hemp : cr.isEmpty
      · rw [if_pos hemp] at h
        exact ⟨_, by rw [← h, serializeStringChars]; rfl⟩
      · rw [if_neg hemp] at h
        exact ⟨_, by rw [← h, serializeStringChars]; rfl⟩

/-- Parsing a bare digit run yields the corresponding number. -/
theorem parseValue_natChars (fuel m : Nat) (rest : List Char) (hnd : noDigitHead rest) :
    parseValue (fuel + 1) (natChars m ++ rest) = some (.num (m : Int), rest) := by
  rcases hnc : natChars m with _ | ⟨c, tl⟩
  · exact absurd hnc (natChars_ne_nil _)
  · have hdig : c.isDigit = true := natChars_digits m c (by rw [hnc]; simp)
    rw [List.cons_append, parseValue_digit fuel c (tl ++ rest) hdig, parsePosNum]
    have heq : c :: (tl ++ rest) = natChars m ++ rest := by rw [hnc]; rfl
    rw [heq, parseNatPart_natChars m rest hnd]

/-- Parser inversion: parsing the serialization of a representable value
(followed by any non-digit-headed remainder) recovers the value exactly.
Proved for values, element lists and field lists simultaneously, by
induction on the parser fuel. -/
theorem parseInv : ∀ fuel : Nat,
    (∀ v cs rest, representable v = true → serializeValue v = .ok cs →
      jsize v ≤ fuel → noDigitHead rest →
      parseValue fuel (cs ++ rest) = some (v, rest)) ∧
    (∀ es cs rest, representableList es = true → es ≠ [] →
      serializeElems es = .ok cs → jsizeList es ≤ fuel →
      parseElems fuel (cs ++ ']' :: rest) = some (es, rest)) ∧
    (∀ fs cs rest, representableFields fs = true → fs ≠ [] →
      serializeFields fs = .ok cs → jsizeFields fs ≤ fuel →
      parseMembers fuel (cs ++ rbrace :: rest) = some (fs, rest)) := by
  intro fuel
  induction fuel with
  | zero =>
    refine ⟨?_, ?_, ?_⟩
    · intro v cs rest _ _ hsz _
      exact absurd hsz (by have := jsize_pos v; omega)
    · intro es cs rest _ hne _ hsz
      cases es with
      | nil => exact absurd rfl hne
      | cons e es2 =>
        rw [jsizeList] at hsz
        exact absurd hsz (by have := jsize_pos e; omega)
    · intro fs cs rest _ hne _ hsz
      cases fs with
      | nil => exact absurd rfl hne
      | cons f fs2 =>
        obtain ⟨k, v⟩ := f
        rw [jsizeFields] at hsz
        exact absurd hsz (by have := jsize_pos v; omega)
  | succ fuel ih =>
    obtain ⟨ihv, ihe, ihf⟩ := ih
    refine ⟨?_, ?_, ?_⟩
    · intro v cs rest hrep hser hsz hnd
      cases v with
      | undef => simp [representable] at hrep
      | bigint n => simp [representable] at hrep
      | func => simp [representable] at hrep
      | null =>
        rw [serializeValue] at hser
        injection hser with hser
        rw [← hser]
        exact parseValue_null fuel rest
      | bool b =>
        cases b
        · rw [serializeValue] at hser
          injection hser with hser
          rw [← hser]
          exact parseValue_false fuel rest
        · rw [serializeValue] at hser
          injection hser with hser
          rw [← hser]
          exact parseValue_true fuel rest
      | num n =>
        rw [serializeValue] at hser
        injection hser with hser
        rw [← hser, intChars]
        by_cases hn : n < 0
        · rw [if_pos hn]
          rw [List.cons_append, parseValue_minus, parseNegNum,
            parseNatPart_natChars _ rest hnd]
          simp only [Option.some.injEq, Prod.mk.injEq, JSValue.num.injEq]
          constructor
          · omega
          · trivial
        · rw [if_neg hn]
          rw [parseValue_natChars fuel n.toNat rest hnd]
          simp only [Option.some.injEq, Prod.mk.injEq, JSValue.num.injEq]
          constructor
          · omega
          · trivial
      | str s =>
        rw [serializeValue] at hser
        injection hser with hser
        rw [← hser, serializeStringChars, List.cons_append, List.append_assoc,
          List.singleton_append, parseValue_quote, parseStringLit,
          readStringChars_escape s.toList rest]
        have hms : String.mk s.toList = s := by cases s; rfl
        simp [hms]
      | arr es =>
        rw [serializeValue] at hser
        cases hes : serializeElems es with
        | error err => rw [hes] at hser; cases hser
        | ok body =>
          rw [hes] at hser
          injection hser with hser
          rw [← hser, List.cons_append, List.append_assoc, List.singleton_append,
            parseValue_bracket]
          cases es with
          | nil =>
            rw [serializeElems] at hes
            injection hes with hes
            rw [← hes, List.nil_append, parseAfterBracket]
            simp
          | cons e es2 =>
            obtain ⟨hd, tl, hbody, hhd⟩ := serializeElems_cons_head e es2 body hes
            rw [hbody, List.cons_append, parseAfterBracket_cons fuel hd _ hhd,
              ← List.cons_append, ← hbody]
            rw [representable] at hrep
            rw [jsize] at hsz
            rw [ihe (e :: es2) body rest hrep (by simp) hes (by omega)]
      | obj fs =>
        rw [serializeValue] at hser
        cases hfs : serializeFields fs with
        | error err => rw [hfs] at hser; cases hser
        | ok body =>
          rw [hfs] at hser
          injection hser with hser
          rw [← hser, List.cons_append, List.append_assoc, List.singleton_append,
            parseValue_brace]
          rw [representable] at hrep
          rcases Bool.and_eq_true_iff.mp hrep with ⟨_, hrf⟩
          cases fs with
          | nil =>
            rw [serializeFields] at hfs
            injection hfs with hfs
            rw [← hfs, List.nil_append, parseAfterBrace]
            simp
          | cons f fs2 =>
            obtain ⟨k, v⟩ := f
            have hnotdrop : isDroppedField v = false := by
              rw [representableFields] at hrf
              rcases Bool.and_eq_true_iff.mp hrf with ⟨hrv, _⟩
              exact representable_not_dropped v hrv
            obtain ⟨tl, hbody⟩ := serializeFields_cons_head k v fs2 body hnotdrop hfs
            rw [hbody, List.cons_append, parseAfterBrace]
            rw [show (('"' : Char) == rbrace) = false from rfl]
            simp only [Bool.false_eq_true, if_false]
            rw [← List.cons_append, ← hbody]
            rw [jsize] at hsz
            rw [ihf ((k, v) :: fs2) body rest hrf (by simp) hfs (by omega)]
    · intro es cs rest hrep hne hser hsz
      cases es with
      | nil => exact absurd rfl hne
      | cons e es2 =>
        rw [representableList] at hrep
        rcases Bool.and_eq_true_iff.mp hrep with ⟨hre, hrr⟩
        rw [jsizeList] at hsz
        rw [serializeElems] at hser
        cases es2 with
        | nil =>
          simp only [List.isEmpty_nil, if_true] at hser
          rw [parseElems]
          rw [ihv e cs (']' :: rest) hre hser (by have := jsize_pos e; omega)
            (noDigitHead_cons ']' rest (by decide))]
          rfl
        | cons e2 es3 =>
          simp only [List.isEmpty_cons, Bool.false_eq_true, if_false] at hser
          cases hce : serializeValue e with
          | error err => rw [hce] at hser; cases hser
          | ok ce =>
            rw [hce] at hser
            cases hcr : serializeElems (e2 :: es3) with
            | error err => rw [hcr] at hser; cases hser
            | ok cr =>
              rw [hcr] at hser
              injection hser with hser
              rw [← hser, List.append_assoc, List.cons_append, parseElems]
              rw [ihv e ce (',' :: (cr ++ ']' :: rest)) hre hce
                (by have := jsize_pos e; omega)
                (noDigitHead_cons ',' _ (by decide))]
              have hjl : jsizeList (e2 :: es3) ≤ fuel := by
                have := jsize_pos e
                omega
              show (match parseElems fuel (cr ++ ']' :: rest) with
                    | some (vs, r3) => some (e :: vs, r3)
                    | none => none) = some (e :: e2 :: es3, rest)
              rw [ihe (e2 :: es3) cr rest hrr (by simp) hcr hjl]
    · intro fs cs rest hrep hne hser hsz
      cases fs with
      | nil => exact absurd rfl hne
      | cons f fs2 =>
        obtain ⟨k, v⟩ := f
        rw [representableFields] at hrep
        rcases Bool.and_eq_true_iff.mp hrep with ⟨hrv, hrr⟩
        rw [jsizeFields] at hsz
        rw [serializeFields, representable_not_dropped v hrv] at hser
        simp only [Bool.false_eq_true, if_false] at hser
        cases hcv : serializeValue v with
        | error err => rw [hcv] at hser; cases hser
        | ok cv =>
          rw [hcv] at hser
          cases hcr : serializeFields fs2 with
          | error err => rw [hcr] at hser; cases hser
          | ok cr =>
            rw [hcr] at hser
            injection hser with hser
            have hms : String.mk k.toList = k := by cases k; rfl
            cases fs2 with
            | nil =>
              rw [serializeFields] at hcr
              injection hcr with hcr
              rw [← hcr] at hser
              simp only [List.isEmpty_nil, if_true] at hser
              have harg : (serializeStringChars k ++ ':' :: cv) ++ rbrace :: rest =
                  '"' :: (escapeChars k.toList ++ '"' :: (':' :: (cv ++ rbrace :: rest))) := by
                simp [serializeStringChars]
              rw [← hser, harg, parseMembers,
                readStringChars_escape k.toList (':' :: (cv ++ rbrace :: rest))]
              show (match parseValue fuel (cv ++ rbrace :: rest) with
                    | some (v2, r3) =>
                        (match r3 with
                         | ',' :: r4 =>
                             (match parseMembers fuel r4 with
                              | some (fs3, r5) => some ((String.mk k.toList, v2) :: fs3, r5)
                              | none => none)
                         | c :: r4 =>
                             if c == rbrace then some ([(String.mk k.toList, v2)], r4)
                             else none
                         | [] => none)
                    | none => none) = some ([(k, v)], rest)
              rw [ihv v cv (rbrace :: rest) hrv hcv (by have := jsize_pos v; omega)
                (noDigitHead_cons rbrace rest (by decide))]
              rfl
            | cons f2 fs3 =>
              obtain ⟨k2, v2⟩ := f2
              have hnd2 : isDroppedField v2 = false := by
                rw [representableFields] at hrr
                rcases Bool.and_eq_true_iff.mp hrr with ⟨hrv2, _⟩
                exact representable_not_dropped v2 hrv2
              obtain ⟨tl2, hcr2⟩ := serializeFields_cons_head k2 v2 fs3 cr hnd2 hcr
              have hcrne : cr.isEmpty = false := by rw [hcr2]; rfl
              rw [hcrne] at hser
              simp only [Bool.false_eq_true, if_false] at hser
              have harg : ((serializeStringChars k ++ ':' :: cv) ++ ',' :: cr) ++
                    rbrace :: rest =
                  '"' :: (escapeChars k.toList ++ '"' ::
                    (':' :: (cv ++ ',' :: (cr ++ rbrace :: rest)))) := by
                simp [serializeStringChars]
              rw [← hser, harg, parseMembers,
                readStringChars_escape k.toList (':' :: (cv ++ ',' :: (cr ++ rbrace :: rest)))]
              show (match parseValue fuel (cv ++ ',' :: (cr ++ rbrace :: rest)) with
                    | some (v2, r3) =>
                        (match r3 with
                         | ',' :: r4 =>
                             (match parseMembers fuel r4 with
                              | some (fs4, r5) => some ((String.mk k.toList, v2) :: fs4, r5)
                              | none => none)
                         | c :: r4 =>
                             if c == rbrace then some ([(String.mk k.toList, v2)], r4)
                             else none
                         | [] => none)
                    | none => none) = some ((k, v) :: (k2, v2) :: fs3, rest)
              rw [ihv v cv (',' :: (cr ++ rbrace :: rest)) hrv hcv
                (by have := jsize_pos v; omega)
                (noDigitHead_cons ',' _ (by decide))]
              have hjf : jsizeFields ((k2, v2) :: fs3) ≤ fuel := by
                have := jsize_pos v
                omega
              show (match parseMembers fuel (cr ++ rbrace :: rest) with
                    | some (fs4, r5) => some ((String.mk k.toList, v) :: fs4, r5)
                    | none => none) = some ((k, v) :: (k2, v2) :: fs3, rest)
              rw [ihf ((k2, v2) :: fs3) cr rest hrr (by simp) hcr hjf]
              rfl

theorem jsonStringify_of_representable (v : JSValue) (cs : List Char)
    (hrep : representable v = true) (hser : serializeValue v = .ok cs) :
    jsonStringify v = .ok (String.mk cs) := by
  rw [jsonStringify, representable_not_dropped v hrep]
  simp only [Bool.false_eq_true, if_false]
  rw [hser]
  rfl

theorem jsonParse_serialize (v : JSValue) (cs : List Char)
    (hrep : representable v = true) (hser : serializeValue v = .ok cs)
    (hlen : jsize v ≤ cs.length) :
    jsonParse (String.mk cs) = .ok v := by
  rw [jsonParse]
  have hto : (String.mk cs).toList = cs := rfl
  have hln : (String.mk cs).length = cs.length := rfl
  rw [hto, hln]
  have hp := (parseInv (cs.length + 1)).1 v cs [] hrep hser (by omega) noDigitHead_nil
  rw [List.append_nil] at hp
  rw [hp]

/-- C6: for every value representable by the canonical JSON
serialization, decoding the encoding — `decompressObject (compressObject
v)` — yields a value structurally equal to `v`. -/
theorem C6_decode_encode_roundtrip (v : JSValue) (h : representable v = true) :
    (compressObject v).bind decompressObject = Except.ok v := by
  obtain ⟨cs, hser, hne, hlen⟩ := (serializeOk_bound (jsize v)).1 v (le_refl _) h
  have h1 : compressObject v = .ok (String.mk cs) := by
    rw [compressObject, jsonStringify_of_representable v cs h hser]
    rfl
  rw [h1]
  have hsne : (String.mk cs == "") = false :=
    beq_eq_false_iff_ne.mpr (fun hcon => hne (by simpa using congrArg String.data hcon))
  show decompressObject (String.mk cs) = .ok v
  rw [decompressObject]
  simp only [decompressFromUTF16, hsne, Bool.false_eq_true, if_false]
  exact jsonParse_serialize v cs h hser hlen

/-- Witness for C6 at a concrete composite value. -/
theorem C6_decode_encode_roundtrip_witness :
    representable (JSValue.obj [("a", .num 1), ("b", .arr [.str "x", .null])]) = true ∧
    (compressObject (JSValue.obj [("a", .num 1), ("b", .arr [.str "x", .null])])).bind
        decompressObject =
      Except.ok (JSValue.obj [("a", .num 1), ("b", .arr [.str "x", .null])]) :=
  ⟨by decide, C6_decode_encode_roundtrip _ (by decide)⟩

/-- C1 counterexample: on a batch where item 0 is missing `"x"` and item
2 carries a non-tagged value for `"y"`, the validation phase reports
only the missing `"x"` — the offending value of item 2 is **not** in the
reported sets (`Array.some` short-circuits at the first failing item),
even though that value fails the tagged-value predicate. -/
theorem C1_counterexample :
    validateAll [C1item0, C1item1, C1item2] C1graph [] [] =
        .ok (true, [.str "x"], []) ∧
    isAnyDataValue (.num 5) = .ok false ∧
    getField C1item2 "y" = some (.num 5) :=
  ⟨rfl, rfl, rfl⟩

/-- C1 (amended): validation stops at the first failing item — once an
item reports invalid, `validateAll` returns that item's sets unchanged
by later items; moreover a single failing item contributes to only one
of the two sets (missing keys, or its first untagged value), never
both. -/
theorem C1_validation_short_circuit (item : JSValue) (rest : List JSValue)
    (graph : NodeGraph) (mk0 nd0 mk1 nd1 : List JSValue)
    (h : validateInputItem item graph mk0 nd0 = .ok (true, mk1, nd1)) :
    validateAll (item :: rest) graph mk0 nd0 = .ok (true, mk1, nd1) ∧
    (mk1 = mk0 ∨ nd1 = nd0) := by
  constructor
  · rw [validateAll, h]
    rfl
  · rw [validateInputItem] at h
    cases he : itemEntriesOf item with
    | error e => rw [he] at h; exact Except.noConfusion h
    | ok kv =>
      obtain ⟨itemKeys, itemValues⟩ := kv
      rw [he] at h
      replace h :
          (if ((expectedKeysOf graph).any fun key => !includesKey itemKeys key) = true then
            Except.ok (true,
              List.foldl addToSet mk0
                (List.filter (fun key => !includesKey itemKeys key) (expectedKeysOf graph)),
              nd0)
          else do
            let p ← checkItemValues itemValues nd0
            match p with
            | (invalidData, notDataValue) => Except.ok (invalidData, mk0, notDataValue)) =
          Except.ok (true, mk1, nd1) := h
      cases hc : (expectedKeysOf graph).any (fun key => !includesKey itemKeys key) with
      | true =>
        rw [hc] at h
        simp only [if_true] at h
        injection h with h
        injection h with _ h
        injection h with h1 h2
        exact Or.inr h2.symm
      | false =>
        rw [hc] at h
        simp only [Bool.false_eq_true, if_false] at h
        cases hcc : checkItemValues itemValues nd0 with
        | error e => rw [hcc] at h; exact Except.noConfusion h
        | ok p =>
          obtain ⟨inv, nd2⟩ := p
          rw [hcc] at h
          injection h with h
          injection h with _ h
          injection h with h1 h2
          exact Or.inl h1.symm

/-- Witness for the amended C1 at the concrete batch of the
counterexample. -/
theorem C1_validation_short_circuit_witness :
    validateAll [C1item0, C1item2] C1graph [] [] = .ok (true, [.str "x"], []) ∧
    ([JSValue.str "x"] = ([] : List JSValue) ∨ ([] : List JSValue) = []) := by
  have h : validateInputItem C1item0 C1graph [] [] = .ok (true, [.str "x"], []) := rfl
  have hmain := C1_validation_short_circuit C1item0 [C1item2] C1graph [] [] [.str "x"] [] h
  exact ⟨hmain.1, hmain.2⟩

/-! ### Claim C2 — fresh cache entry -/

/-- C2: the entry created when no cache entry exists has an empty cache
mapping, but its expiry is `Date.now() + 1 * 60 * 60` = now + 3600
**milliseconds** (3.6 seconds), not now + one hour (3,600,000 ms) as the
source's own `/** 1 hour */` comment and the spec state. -/
theorem C2_fresh_entry_ttl (now : Nat) (snap : String) :
    (freshCacheEntry now snap).cache = [] ∧
    (freshCacheEntry now snap).expiryTimestamp = now + 3600 ∧
    (freshCacheEntry now snap).expiryTimestamp ≠ now + 60 * 60 * 1000 :=
  ⟨rfl, rfl, by simp [freshCacheEntry]⟩

/-! ### Claim C5 — cache invalidation on snapshot change -/

/-- C5: `invalideCacheIfChanges` clears the cache mapping and replaces
the stored snapshot exactly when the stored snapshot differs from the
current one, and leaves the entry untouched when they are equal.  In
`process` this reconciliation is applied (line 342) to the entry before
the task phase starts, so every cache lookup and insert of the
invocation reads the reconciled entry. -/
theorem C5_cache_invalidation (entry : CacheEntry) (snap : String) :
    (entry.graphSnapshot ≠ some snap →
      invalideCacheIfChanges entry snap =
        { entry with cache := [], graphSnapshot := some snap }) ∧
    (entry.graphSnapshot = some snap →
      invalideCacheIfChanges entry snap = entry) := by
  constructor
  · intro hne
    rw [invalideCacheIfChanges, if_pos]
    simpa using hne
  · intro heq
    rw [invalideCacheIfChanges, if_neg]
    simp [heq]

/-- Witness for C5: a stale entry is cleared; a matching entry is kept. -/
theorem C5_cache_invalidation_witness :
    invalideCacheIfChanges
        { cache := [("k", "v")], expiryTimestamp := 7, graphSnapshot := some "a" } "b" =
      { cache := [], expiryTimestamp := 7, graphSnapshot := some "b" } ∧
    invalideCacheIfChanges
        { cache := [("k", "v")], expiryTimestamp := 7, graphSnapshot := some "a" } "a" =
      { cache := [("k", "v")], expiryTimestamp := 7, graphSnapshot := some "a" } := by
  constructor
  · exact (C5_cache_invalidation
      { cache := [("k", "v")], expiryTimestamp := 7, graphSnapshot := some "a" } "b").1
      (by decide)
  · exact (C5_cache_invalidation
      { cache := [("k", "v")], expiryTimestamp := 7, graphSnapshot := some "a" } "a").2 rfl

/-! ### Claim C10 — null batch elements -/

theorem validateAll_append_ok (pre : List JSValue) (graph : NodeGraph)
    (mk nd mk2 nd2 : List JSValue) (rest : List JSValue)
    (h : validateAll pre graph mk nd = .ok (false, mk2, nd2)) :
    validateAll (pre ++ rest) graph mk nd = validateAll rest graph mk2 nd2 := by
  induction pre generalizing mk nd with
  | nil =>
    rw [validateAll] at h
    injection h with h
    injection h with h1 h
    injection h with h2 h3
    rw [List.nil_append, h2, h3]
  | cons p pre ih =>
    rw [validateAll] at h
    cases hv : validateInputItem p graph mk nd with
    | error e => rw [hv] at h; exact Except.noConfusion h
    | ok t =>
      obtain ⟨inv, mkp, ndp⟩ := t
      rw [hv] at h
      cases inv with
      | true =>
        replace h : Except.ok (true, mkp, ndp) = Except.ok (false, mk2, nd2) := h
        injection h with h
        injection h with h1 _
        exact Bool.noConfusion h1
      | false =>
        replace h : validateAll pre graph mkp ndp = Except.ok (false, mk2, nd2) := h
        rw [List.cons_append, validateAll, hv]
        show validateAll (pre ++ rest) graph mkp ndp = validateAll rest graph mk2 nd2
        exact ih mkp ndp h

theorem validateInputItem_null (graph : NodeGraph) (mk nd : List JSValue) :
    validateInputItem .null graph mk nd =
      .error "TypeError: Cannot convert undefined or null to object" := rfl

/-- C10 counterexample: a batch containing `null` for which the claim's
conclusion fails — because the batch also contains a number, the
whole-batch shape rejection **does** trigger and `process` returns the
rejection outputs normally instead of throwing. -/
theorem C10_counterexample :
    JSValue.null ∈ C10argsShape.iteratorInputs ∧
    process C10argsShape = .ok (.controlFlowExcluded shapeRejectionMessage, []) :=
  ⟨by simp [C10argsShape], rfl⟩

/-- C10 (amended): for a batch whose elements all have JavaScript
`typeof` `"object"` and that contains `null`, where every element before
the first `null` passes per-item validation (and the graph snapshot
serializes), the shape rejection does not trigger (`typeof null` is
`"object"`) and `process` terminates with the uncaught `TypeError`
thrown by `Object.keys(null)` instead of returning outputs. -/
theorem C10_null_item_throws (args : ProcessArgs) (pre post : List JSValue)
    (s : String) (mk2 nd2 : List JSValue)
    (hitems : args.iteratorInputs = pre ++ .null :: post)
    (hobj : ∀ item ∈ args.iteratorInputs, jsTypeof item = "object")
    (hsnap : graphSnapshotOf args.graph = .ok s)
    (hpre : validateAll pre args.graph [] [] = .ok (false, mk2, nd2)) :
    process args = .error "TypeError: Cannot convert undefined or null to object" := by
  have hshape : args.iteratorInputs.any (fun s => !(jsTypeof s == "object")) = false := by
    rw [List.any_eq_false]
    intro x hx
    simp [hobj x hx]
  have hval : validateAll args.iteratorInputs args.graph [] [] =
      .error "TypeError: Cannot convert undefined or null to object" := by
    rw [hitems, validateAll_append_ok pre args.graph [] [] mk2 nd2 _ hpre,
      validateAll, validateInputItem_null]
    rfl
  rw [process, hshape]
  simp only [Bool.false_eq_true, if_false]
  rw [hsnap]
  show (do
    let (invalidInputs, missingKeys, notDataValue) ←
      validateAll args.iteratorInputs args.graph [] []
    if invalidInputs then do
      let msg ← validationErrorMessage missingKeys notDataValue
      (.ok (.controlFlowExcluded msg, args.storage) :
        Except String (NodeOut × List (String × CacheEntry)))
    else do
      let ctx : TaskCtx :=
        { graphRefValue := args.graphRefValue, graphName := args.graphName,
          hasCache := args.hasCacheData && !(args.nodeId == none),
          runGraph := args.runGraph }
      let (iteratorOutputs, st) ← runTasksSeq ctx args.iteratorInputs 0
        { abortIteration := false,
          cache := (invalideCacheIfChanges
            (match args.nodeId with
             | some nid => (args.storage.lookup nid).getD (freshCacheEntry args.now s)
             | none => freshCacheEntry args.now s) s).cache }
      let storage :=
        if args.hasCacheData && !(args.nodeId == none) then
          match args.nodeId with
          | some nid =>
              cleanExpiredCache
                (mapSet args.storage nid
                  { invalideCacheIfChanges
                      (match args.nodeId with
                       | some nid2 => (args.storage.lookup nid2).getD (freshCacheEntry args.now s)
                       | none => freshCacheEntry args.now s) s with cache := st.cache })
                args.now
          | none => args.storage
        else args.storage
      .ok (aggregateOutcomes iteratorOutputs, storage)) =
    .error "TypeError: Cannot convert undefined or null to object"
  rw [hval]
  rfl

/-- Witness for the amended C10 at a concrete two-item batch. -/
theorem C10_null_item_throws_witness :
    process { C10argsShape with iteratorInputs := [C1item1, .null] } =
      .error "TypeError: Cannot convert undefined or null to object" := by
  refine C10_null_item_throws _ [C1item1] [] "[]" [] [] rfl ?_ ?_ ?_
  · intro item hitem
    simp only [List.mem_cons, List.mem_singleton] at hitem
    rcases hitem with h | h | h
    · rw [h]; rfl
    · rw [h]; rfl
    · simp at h
  · simp [graphSnapshotOf, jsonStringify, isDroppedField, serializeValue, serializeElems,
      sha256]
    rfl
  · rfl

/-! ### Claim C4 — aggregated batch error -/

theorem mapWithIndex_get {α β : Type} (f : Nat → α → β) :
    ∀ (l : List α) (i j : Nat), (mapWithIndex f i l).get? j = (l.get? j).map (f (i + j)) := by
  intro l
  induction l with
  | nil => intro i j; simp [mapWithIndex]
  | cons x xs ih =>
    intro i j
    cases j with
    | zero => simp [mapWithIndex]
    | succ j =>
      rw [mapWithIndex]
      simp only [List.get?_cons_succ]
      rw [ih (i + 1) j, show i + 1 + j = i + (j + 1) from by omega]

/-- C4 counterexample: with a success at batch index 0 and a failure at
batch index 1, the aggregated message labels the failure `ItemIndex: 0`
— the position within the filtered list of failing outcomes, not the
item's batch index (which appears only inside the stored error text);
and a skipped outcome contributes the line `ItemIndex: 0:: undefined`
rather than no message text. -/
theorem C4_counterexample :
    aggregateOutcomes [C4okOut, C4failOut] =
        .controlFlowExcluded ("ItemIndex: 0:: " ++ C4failMsg) ∧
    isCfeOutputs C4okOut = false ∧
    isCfeOutputs C4failOut = true ∧
    aggregateOutcomes [C4okOut, skippedItemOutput] =
        .controlFlowExcluded "ItemIndex: 0:: undefined" :=
  ⟨rfl, rfl, rfl, rfl⟩

/-- C4 (amended): when any outcome is Failed or Skipped the batch result
is a single aggregated error; its message joins one `ItemIndex: j` line
per failing outcome where `j` is the position among the failing outcomes
(each Failed item's own text carries the true batch index); skipped
outcomes contribute an `ItemIndex: j:: undefined` line; with no failing
outcome the ordered results are returned. -/
theorem C4_aggregated_error (outs : List JSValue) :
    ((∃ o ∈ outs, isCfeOutputs o = true) ↔
      aggregateOutcomes outs =
        .controlFlowExcluded (String.intercalate "; "
          (mapWithIndex errorLineOf 0 (outs.filter isCfeOutputs)))) ∧
    ((∀ o ∈ outs, isCfeOutputs o = false) → aggregateOutcomes outs = .results outs) ∧
    (∀ j m, (outs.filter isCfeOutputs).get? j = some m →
      (mapWithIndex errorLineOf 0 (outs.filter isCfeOutputs)).get? j =
        some ("ItemIndex: " ++ toString j ++ ":: " ++
          jsDisplay ((getField m "error").bind (fun e => getField e "value")))) ∧
    (∀ i, errorLineOf i skippedItemOutput =
      "ItemIndex: " ++ toString i ++ ":: " ++ "undefined") := by
  refine ⟨⟨?_, ?_⟩, ?_, ?_, ?_⟩
  · intro hex
    rw [aggregateOutcomes, if_pos]
    rw [List.any_eq_true]
    obtain ⟨o, ho, hc⟩ := hex
    exact ⟨o, ho, hc⟩
  · intro h
    cases hany : outs.any isCfeOutputs with
    | true =>
      obtain ⟨o, ho, hc⟩ := List.any_eq_true.mp hany
      exact ⟨o, ho, hc⟩
    | false =>
      rw [aggregateOutcomes, hany] at h
      simp only [Bool.false_eq_true, if_false] at h
      exact NodeOut.noConfusion h
  · intro hall
    rw [aggregateOutcomes, if_neg]
    rw [Bool.not_eq_true, List.any_eq_false]
    intro o ho
    simp [hall o ho]
  · intro j m hm
    rw [mapWithIndex_get errorLineOf (outs.filter isCfeOutputs) 0 j, hm]
    rw [show (0 + j) = j from by omega]
    rfl
  · intro i
    rfl

/-- Witness for the amended C4 at a concrete outcome list. -/
theorem C4_aggregated_error_witness :
    aggregateOutcomes [C4okOut, C4failOut] =
      .controlFlowExcluded (String.intercalate "; "
        (mapWithIndex errorLineOf 0 ([C4okOut, C4failOut].filter isCfeOutputs))) :=
  (C4_aggregated_error [C4okOut, C4failOut]).1.mp
    ⟨C4failOut, List.mem_cons_of_mem C4okOut (List.mem_cons_self C4failOut []), rfl⟩

/-! ### Claim C3 — codec failures during a task -/

theorem ok_bind {α β : Type} (a : α) (f : α → Except String β) :
    (Except.ok a >>= f) = f a := rfl

theorem error_bind {α β : Type} (e : String) (f : α → Except String β) :
    ((Except.error e : Except String α) >>= f) = Except.error e := rfl

/-- A decode failure on a stored cache value lands in the `catch` block:
failed outcome, abort latched, cache unchanged. -/
theorem runTask_decode_failure (ctx : TaskCtx) (st : TaskState) (item : JSValue)
    (index : Nat) (key c e msg : String)
    (habort : st.abortIteration = false) (hcache : ctx.hasCache = true)
    (hkey : jsonStringify (iteratorInputDataOf ctx.graphRefValue item) = .ok key)
    (hlookup : st.cache.lookup (sha256 key) = some c) (hcne : (c == "") = false)
    (hdec : decompressObject c = .error e)
    (hmsg : failMessage ctx.graphName index item e = .ok msg) :
    runTask ctx st item index =
      .ok (failedItemOutput (.obj []) msg, { st with abortIteration := true }) := by
    have hatt : taskAttempt ctx st.cache item = .error (e, .obj []) := by
      rw [taskAttempt, hcache]
      simp only [if_true]
      rw [hkey]
      show (match st.cache.lookup (sha256 key) with
            | some cachedOutputCompressed =>
                if cachedOutputCompressed == "" then taskCompute ctx st.cache item
                else
                  match decompressObject cachedOutputCompressed with
                  | .ok o => (.ok (o, st.cache) : Except (String × JSValue) _)
                  | .error e2 => .error (e2, .obj [])
            | none => taskCompute ctx st.cache item) = .error (e, .obj [])
      rw [hlookup]
      show (if (c == "") = true then taskCompute ctx st.cache item
            else
              match decompressObject c with
              | .ok o => (.ok (o, st.cache) : Except (String × JSValue) _)
              | .error e2 => .error (e2, .obj [])) = .error (e, .obj [])
      rw [hcne]
      simp only [Bool.false_eq_true, if_false]
      rw [hdec]
    rw [runTask, habort]
    simp only [Bool.not_false, if_true]
    rw [hatt]
    show (match failMessage ctx.graphName index item e with
          | .ok msg2 =>
              (.ok (failedItemOutput (.obj []) msg2, { st with abortIteration := true }) :
                Except String (JSValue × TaskState))
          | .error e3 => .error e3) =
        .ok (failedItemOutput (.obj []) msg, { st with abortIteration := true })
    rw [hmsg]

/-- An encode failure on a fresh result lands in the `catch` block:
failed outcome built over the computed output, abort latched, cache
unchanged. -/
theorem runTask_encode_failure (ctx : TaskCtx) (st : TaskState) (item : JSValue)
    (index : Nat) (key e msg : String) (out : JSValue)
    (habort : st.abortIteration = false) (hcache : ctx.hasCache = true)
    (hkey : jsonStringify (iteratorInputDataOf ctx.graphRefValue item) = .ok key)
    (hlookup : st.cache.lookup (sha256 key) = none)
    (hrun : ctx.runGraph (iteratorInputDataOf ctx.graphRefValue item) = .ok out)
    (henc : compressObject out = .error e)
    (hmsg : failMessage ctx.graphName index item e = .ok msg) :
    runTask ctx st item index =
      .ok (failedItemOutput out msg, { st with abortIteration := true }) := by
    have hatt : taskAttempt ctx st.cache item = .error (e, out) := by
      rw [taskAttempt, hcache]
      simp only [if_true]
      rw [hkey]
      show (match st.cache.lookup (sha256 key) with
            | some cachedOutputCompressed =>
                if cachedOutputCompressed == "" then taskCompute ctx st.cache item
                else
                  match decompressObject cachedOutputCompressed with
                  | .ok o => (.ok (o, st.cache) : Except (String × JSValue) _)
                  | .error e2 => .error (e2, .obj [])
            | none => taskCompute ctx st.cache item) = .error (e, out)
      rw [hlookup]
      show taskCompute ctx st.cache item = .error (e, out)
      rw [taskCompute, hrun]
      show (if ctx.hasCache = true then
              match jsonStringify (iteratorInputDataOf ctx.graphRefValue item) with
              | .error e2 => (.error (e2, out) : Except (String × JSValue) _)
              | .ok s =>
                  match compressObject out with
                  | .error e2 => .error (e2, out)
                  | .ok compressed => .ok (out, mapSet st.cache (sha256 s) compressed)
            else .ok (out, st.cache)) = .error (e, out)
      rw [hcache]
      simp only [if_true]
      rw [hkey]
      show (match compressObject out with
            | .error e2 => (.error (e2, out) : Except (String × JSValue) _)
            | .ok compressed => .ok (out, mapSet st.cache (sha256 key) compressed)) =
          .error (e, out)
      rw [henc]
    rw [runTask, habort]
    simp only [Bool.not_false, if_true]
    rw [hatt]
    show (match failMessage ctx.graphName index item e with
          | .ok msg2 =>
              (.ok (failedItemOutput out msg2, { st with abortIteration := true }) :
                Except String (JSValue × TaskState))
          | .error e3 => .error e3) =
        .ok (failedItemOutput out msg, { st with abortIteration := true })
    rw [hmsg]

/-- C3 (amended): when caching is enabled, a failure to decode a stored
cache value — or a failure to encode a freshly computed result — makes
the task's `catch` block record a Failed outcome (outputs
control-flow-excluded plus the error message) and latch the abort flag;
the fresh result is not returned as a Success and no recomputation
happens (the cache is left unchanged). -/
theorem C3_codec_failure_fails_item :
    (∀ (ctx : TaskCtx) (st : TaskState) (item : JSValue) (index : Nat)
        (key c e msg : String),
      st.abortIteration = false → ctx.hasCache = true →
      jsonStringify (iteratorInputDataOf ctx.graphRefValue item) = .ok key →
      st.cache.lookup (sha256 key) = some c → (c == "") = false →
      decompressObject c = .error e →
      failMessage ctx.graphName index item e = .ok msg →
      runTask ctx st item index =
        .ok (failedItemOutput (.obj []) msg, { st with abortIteration := true })) ∧
    (∀ (ctx : TaskCtx) (st : TaskState) (item : JSValue) (index : Nat)
        (key e msg : String) (out : JSValue),
      st.abortIteration = false → ctx.hasCache = true →
      jsonStringify (iteratorInputDataOf ctx.graphRefValue item) = .ok key →
      st.cache.lookup (sha256 key) = none →
      ctx.runGraph (iteratorInputDataOf ctx.graphRefValue item) = .ok out →
      compressObject out = .error e →
      failMessage ctx.graphName index item e = .ok msg →
      runTask ctx st item index =
        .ok (failedItemOutput out msg, { st with abortIteration := true })) :=
  ⟨fun ctx st item index key c e msg h1 h2 h3 h4 h5 h6 h7 =>
    runTask_decode_failure ctx st item index key c e msg h1 h2 h3 h4 h5 h6 h7,
   fun ctx st item index key e msg out h1 h2 h3 h4 h5 h6 h7 =>
    runTask_encode_failure ctx st item index key e msg out h1 h2 h3 h4 h5 h6 h7⟩

theorem okD_eq {x : Except String String} (h : ∃ s, x = .ok s) : x = .ok (okD x) := by
  obtain ⟨s, hs⟩ := h
  rw [hs]
  rfl

theorem C3key_spec : jsonStringify (iteratorInputDataOf C3gref C3item) = .ok C3key := by
  apply okD_eq
  obtain ⟨cs, hser, _, _⟩ :=
    (serializeOk_bound (jsize (iteratorInputDataOf C3gref C3item))).1 _ (le_refl _) (by decide)
  exact ⟨String.mk cs, jsonStringify_of_representable _ cs (by decide) hser⟩

theorem C3msg_spec : failMessage "g" 0 C3item C3errText = .ok C3msg := by
  apply okD_eq
  obtain ⟨cs, hser, _, _⟩ := (serializeOk_bound (jsize C3item)).1 _ (le_refl _) (by decide)
  have hj := jsonStringify_of_representable C3item cs (by decide) hser
  refine ⟨"Error running graph g.  ItemIndex: 0::  Inputs: " ++ String.mk cs ++
    "  Message: " ++ C3errText, ?_⟩
  rw [failMessage, hj]
  rfl

theorem C3lookup_spec :
    ([(C3key, "x")] : List (String × String)).lookup (sha256 C3key) = some "x" := by
  simp [List.lookup, sha256]

theorem C3dec_spec : decompressObject "x" = .error C3errText := by
  rw [decompressObject]
  show (if (("x" : String) == "") = true then
          (.error "Decompression returned null or undefined." : Except String JSValue)
        else jsonParse "x") = .error C3errText
  rw [show (("x" : String) == "") = false from rfl]
  simp only [Bool.false_eq_true, if_false]
  rw [jsonParse]
  rw [show ("x" : String).length = 1 from rfl, show ("x" : String).toList = ['x'] from rfl]
  rw [show parseValue 2 ['x'] = none from by rw [parseValue]; rfl]
  rfl

/-- C3 counterexample: the cache holds a corrupt value `"x"` under the
item's key; the claim says this decode failure is treated as a cache
miss with recomputation (the callable would succeed), but the task
instead produces a Failed (control-flow-excluded) outcome and latches
the abort flag. -/
theorem C3_counterexample :
    runTask C3ctx { abortIteration := false, cache := [(C3key, "x")] } C3item 0 =
      .ok (failedItemOutput (.obj []) C3msg,
        { abortIteration := true, cache := [(C3key, "x")] }) ∧
    C3ctx.runGraph (iteratorInputDataOf C3ctx.graphRefValue C3item) = .ok C3goodOut ∧
    isCfeOutputs (failedItemOutput (.obj []) C3msg) = true := by
  refine ⟨?_, rfl, rfl⟩
  exact runTask_decode_failure C3ctx _ C3item 0 C3key "x" C3errText C3msg rfl rfl
    C3key_spec C3lookup_spec rfl C3dec_spec C3msg_spec

/-- Witness for the amended C3 at the concrete corrupt-cache scenario. -/
theorem C3_codec_failure_fails_item_witness :
    runTask C3ctx { abortIteration := false, cache := [(C3key, "x")] } C3item 0 =
      .ok (failedItemOutput (.obj []) C3msg,
        { abortIteration := true, cache := [(C3key, "x")] }) :=
  C3_codec_failure_fails_item.1 C3ctx _ C3item 0 C3key "x" C3errText C3msg rfl rfl
    C3key_spec C3lookup_spec rfl C3dec_spec C3msg_spec

theorem countP_set (p : TaskPhase → Bool) :
    ∀ (l : List TaskPhase) (i : Nat) (x y : TaskPhase), l.get? i = some x →
      (l.set i y).countP p + (if p x then 1 else 0) =
        l.countP p + (if p y then 1 else 0) := by
  intro l
  induction l with
  | nil => intro i x y h; simp at h
  | cons a l ih =>
    intro i x y h
    cases i with
    | zero =>
      simp only [List.get?_cons_zero] at h
      injection h with h
      subst h
      simp only [List.set_cons_zero, List.countP_cons]
      omega
    | succ i =>
      simp only [List.get?_cons_succ] at h
      simp only [List.set_cons_succ, List.countP_cons]
      have := ih i x y h
      omega

theorem get_set_self {α : Type} :
    ∀ (l : List α) (i : Nat) (a x : α), l.get? i = some x →
      (l.set i a).get? i = some a := by
  intro l
  induction l with
  | nil => intro i a x h; simp at h
  | cons b l ih =>
    intro i a x h
    cases i with
    | zero => rfl
    | succ i =>
      simp only [List.get?_cons_succ] at h ⊢
      exact ih i a x h

theorem get_set_other {α : Type} :
    ∀ (l : List α) (i j : Nat) (a : α), i ≠ j → (l.set i a).get? j = l.get? j := by
  intro l
  induction l with
  | nil => intro i j a _; simp
  | cons b l ih =>
    intro i j a hne
    cases i with
    | zero =>
      cases j with
      | zero => exact absurd rfl hne
      | succ j => rfl
    | succ i =>
      cases j with
      | zero => rfl
      | succ j =>
        simp only [List.set_cons_succ, List.get?_cons_succ]
        exact ih i j a (by omega)

/-! ### Claim C9 — concurrency bound -/

/-- C9: in every reachable state of a run with concurrency limit `n`, at
most `n` tasks (hence at most `n` subgraph invocations) are in flight;
and the resolved concurrency limit (line 304) is always positive. -/
theorem C9_concurrency_bound :
    (∀ (work : Nat → Except String JSValue) (n m : Nat) (s : OpState),
      OpReach work n m s → runningCount s.phases ≤ n) ∧
    (∀ (c : Option Int) (d : Int), 0 < resolveChunkSize c d) := by
  constructor
  · intro work n m s hreach
    induction hreach with
    | init =>
      have hz : runningCount (initOpState m).phases = 0 := by
        rw [initOpState, runningCount, List.countP_eq_zero]
        intro a ha
        rw [List.eq_of_mem_replicate ha]
        simp
      omega
    | @step s s2 hr hstep ih =>
      cases hstep with
      | start i hp hcap =>
        have hc := countP_set (fun p => match p with | .running _ => true | _ => false)
          s.phases i .pending (.running s.abort) hp
        simp at hc
        simp only [startTask, runningCount] at *
        omega
      | finish i sawAbort hp =>
        rw [finishTask]
        split
        · have hc := countP_set (fun p => match p with | .running _ => true | _ => false)
            s.phases i (.running sawAbort) (.done skippedItemOutput) hp
          simp at hc
          simp only [runningCount] at *
          omega
        · split
          · rename_i out hout
            have hc := countP_set (fun p => match p with | .running _ => true | _ => false)
              s.phases i (.running sawAbort) (.done out) hp
            simp at hc
            simp only [runningCount] at *
            omega
          · rename_i e hout
            have hc := countP_set (fun p => match p with | .running _ => true | _ => false)
              s.phases i (.running sawAbort) (.done (failedItemOutput (.obj []) e)) hp
            simp at hc
            simp only [runningCount] at *
            omega
  · intro c d
    rw [resolveChunkSize]
    split <;> omega

/-- Witness for C9: the initial two-item state with limit 1, and a
concrete resolved limit. -/
theorem C9_concurrency_bound_witness :
    runningCount (initOpState 2).phases ≤ 1 ∧ 0 < resolveChunkSize (some 3) 1 :=
  ⟨C9_concurrency_bound.1 (fun _ => .ok (.obj [])) 1 2 (initOpState 2) OpReach.init,
   C9_concurrency_bound.2 (some 3) 1⟩

/-! ### Claim C8 — abort latching and skip semantics -/

/-- C8: the abort flag is latched — no step ever unsets it; a task that
starts after the flag is set is marked as having seen it, and on finish
produces the Skipped outcome without running the subgraph work (its
index is not added to `invoked`) and without touching the flag; a task
that started before the flag was set (saw `false`) still finishes with
its own work's outcome; and a failing finish sets the flag. -/
theorem C8_abort_latch :
    (∀ (work : Nat → Except String JSValue) (n : Nat) (s s2 : OpState),
      OpStep work n s s2 → s.abort = true → s2.abort = true) ∧
    (∀ (s : OpState) (i : Nat) (x : TaskPhase), s.abort = true →
      s.phases.get? i = some x →
      (startTask s i).phases.get? i = some (.running true)) ∧
    (∀ (work : Nat → Except String JSValue) (s : OpState) (i : Nat) (x : TaskPhase),
      s.phases.get? i = some x →
      (finishTask work s i true).phases.get? i = some (.done skippedItemOutput) ∧
      (finishTask work s i true).invoked = s.invoked ∧
      (finishTask work s i true).abort = s.abort) ∧
    (∀ (work : Nat → Except String JSValue) (s : OpState) (i : Nat) (x : TaskPhase)
        (out : JSValue), s.phases.get? i = some x → work i = .ok out →
      (finishTask work s i false).phases.get? i = some (.done out)) ∧
    (∀ (work : Nat → Except String JSValue) (s : OpState) (i : Nat) (e : String),
      work i = .error e → (finishTask work s i false).abort = true) := by
  refine ⟨?_, ?_, ?_, ?_, ?_⟩
  · intro work n s s2 hstep habort
    cases hstep with
    | start i hp hcap => exact habort
    | finish i sawAbort hp =>
      rw [finishTask]
      split
      · exact habort
      · split
        · exact habort
        · rfl
  · intro s i x habort hp
    rw [startTask, habort]
    exact get_set_self s.phases i (.running true) x hp
  · intro work s i x hp
    rw [finishTask]
    simp only [if_true]
    exact ⟨get_set_self s.phases i (.done skippedItemOutput) x hp, by trivial, by trivial⟩
  · intro work s i x out hp hw
    rw [finishTask]
    simp only [Bool.false_eq_true, if_false, hw]
    exact get_set_self s.phases i (.done out) x hp
  · intro work s i e hw
    rw [finishTask]
    simp only [Bool.false_eq_true, if_false, hw]

/-- Witness for C8 on concrete one-task states. -/
theorem C8_abort_latch_witness :
    (startTask C8s1 0).phases.get? 0 = some (.running true) ∧
    (finishTask (fun _ => .ok (.obj [])) C8s2 0 true).phases.get? 0 =
      some (.done skippedItemOutput) ∧
    (finishTask (fun _ => .error "boom") C8s3 0 false).abort = true :=
  ⟨C8_abort_latch.2.1 C8s1 0 .pending rfl rfl,
   (C8_abort_latch.2.2.1 (fun _ => .ok (.obj [])) C8s2 0 (.running true) rfl).1,
   C8_abort_latch.2.2.2.2 (fun _ => .error "boom") C8s3 0 "boom" rfl⟩

/-! ### Claim C7 — ordered outputs regardless of completion order -/

/-- When every task's work succeeds, the abort flag never latches along
any schedule, and every task is pending, cleanly in flight, or done with
exactly its own item's result. -/
theorem opReach_success_invariant (work : Nat → Except String JSValue) (n m : Nat)
    (out : Nat → JSValue) (s : OpState)
    (hwork : ∀ i, i < m → work i = .ok (out i))
    (hreach : OpReach work n m s) :
    s.abort = false ∧ s.phases.length = m ∧
    (∀ i x, s.phases.get? i = some x →
      x = .pending ∨ x = .running false ∨ x = .done (out i)) := by
  induction hreach with
  | init =>
    refine ⟨rfl, by rw [initOpState]; simp, ?_⟩
    intro i x hx
    rw [initOpState] at hx
    have hmem := List.get?_mem hx
    exact Or.inl (List.eq_of_mem_replicate hmem)
  | @step s s2 hr hstep ih =>
    obtain ⟨hab, hlen, hph⟩ := ih
    cases hstep with
    | start i hp hcap =>
      refine ⟨hab, by simp [startTask, hlen], ?_⟩
      intro j x hx
      by_cases hij : i = j
      · subst hij
        rw [startTask] at hx
        rw [get_set_self s.phases i (.running s.abort) .pending hp] at hx
        injection hx with hx
        rw [← hx, hab]
        exact Or.inr (Or.inl rfl)
      · rw [startTask] at hx
        rw [get_set_other s.phases i j _ hij] at hx
        exact hph j x hx
    | finish i sawAbort hp =>
      have hsaw : sawAbort = false := by
        rcases hph i _ hp with h | h | h
        · exact absurd h (by simp)
        · injection h
        · exact absurd h (by simp)
      subst hsaw
      have him : i < m := by
        obtain ⟨hlt, _⟩ := List.get?_eq_some.mp hp
        omega
      rw [finishTask]
      simp only [Bool.false_eq_true, if_false]
      rw [hwork i him]
      refine ⟨hab, by simp [hlen], ?_⟩
      intro j x hx
      by_cases hij : i = j
      · subst hij
        rw [get_set_self s.phases i (.done (out i)) _ hp] at hx
        injection hx with hx
        rw [← hx]
        exact Or.inr (Or.inr rfl)
      · rw [get_set_other s.phases i j _ hij] at hx
        exact hph j x hx

/-- `Promise.all` semantics: a defined collected result means every task
is done, and the result at position `j` is task `j`'s output. -/
theorem mapM_phaseOutput_spec :
    ∀ (l : List TaskPhase) (outs : List JSValue), l.mapM phaseOutput = some outs →
      outs.length = l.length ∧ ∀ j, outs.get? j = (l.get? j).bind phaseOutput := by
  intro l
  induction l with
  | nil =>
    intro outs h
    replace h : some [] = some outs := h
    injection h with h
    subst h
    exact ⟨rfl, fun j => by cases j <;> rfl⟩
  | cons p l ih =>
    intro outs h
    rw [List.mapM_cons] at h
    cases hpo : phaseOutput p with
    | none => rw [hpo] at h; exact Option.noConfusion h
    | some o =>
      rw [hpo] at h
      cases hm : l.mapM phaseOutput with
      | none => rw [hm] at h; exact Option.noConfusion h
      | some os =>
        rw [hm] at h
        replace h : some (o :: os) = some outs := h
        injection h with h
        subst h
        obtain ⟨hl, hg⟩ := ih os hm
        refine ⟨by simp [hl], ?_⟩
        intro j
        cases j with
        | zero => simp [hpo]
        | succ j => simpa using hg j

/-- C7: along every schedule in which each item's work succeeds (with a
result that is not control-flow-excluded), the collected output array
has exactly one entry per input item and the entry at position `i` is
item `i`'s result, and aggregation returns them in input order. -/
theorem C7_ordered_outputs (work : Nat → Except String JSValue) (n m : Nat)
    (out : Nat → JSValue) (s : OpState) (outs : List JSValue)
    (hwork : ∀ i, i < m → work i = .ok (out i))
    (hcfe : ∀ i, i < m → isCfeOutputs (out i) = false)
    (hreach : OpReach work n m s)
    (hdone : outputsOf s = some outs) :
    outs.length = m ∧ outs = (List.range m).map out ∧
    aggregateOutcomes outs = .results outs := by
  obtain ⟨hab, hlen, hph⟩ := opReach_success_invariant work n m out s hwork hreach
  rw [outputsOf] at hdone
  obtain ⟨hol, hog⟩ := mapM_phaseOutput_spec s.phases outs hdone
  have hlen2 : outs.length = m := by omega
  have hget : ∀ j, j < m → outs.get? j = some (out j) := by
    intro j hj
    have hjl : j < s.phases.length := by omega
    obtain ⟨x, hx⟩ : ∃ x, s.phases.get? j = some x :=
      ⟨s.phases.get ⟨j, hjl⟩, List.get?_eq_get hjl⟩
    have hnone : outs.get? j ≠ none := by
      intro hn
      have := List.get?_eq_none.mp hn
      omega
    rcases hph j x hx with h | h | h
    · exact absurd (by rw [hog j, hx, h]; rfl) hnone
    · exact absurd (by rw [hog j, hx, h]; rfl) hnone
    · rw [hog j, hx, h]
      rfl
  have houts : outs = (List.range m).map out := by
    apply List.ext_get?
    intro j
    by_cases hj : j < m
    · rw [hget j hj, List.get?_map, List.get?_range hj]
      rfl
    · have h1 : outs.get? j = none := List.get?_eq_none.mpr (by omega)
      have h2 : ((List.range m).map out).get? j = none :=
        List.get?_eq_none.mpr (by simp; omega)
      rw [h1, h2]
  refine ⟨hlen2, houts, ?_⟩
  rw [aggregateOutcomes, if_neg]
  rw [Bool.not_eq_true, List.any_eq_false]
  intro o ho
  rw [houts] at ho
  obtain ⟨i, hi, rfl⟩ := List.mem_map.mp ho
  simp [hcfe i (List.mem_range.mp hi)]

/-- Witness for C7 on a completed one-item run. -/
theorem C7_ordered_outputs_witness :
    ([C7out0].length = 1) ∧ [C7out0] = (List.range 1).map (fun _ => C7out0) ∧
    aggregateOutcomes [C7out0] = .results [C7out0] := by
  have h0 : OpReach C7work 1 1 (initOpState 1) := OpReach.init
  have h1 : OpReach C7work 1 1 (startTask (initOpState 1) 0) :=
    OpReach.step h0 (OpStep.start (initOpState 1) 0 rfl (by decide))
  have hreach : OpReach C7work 1 1 C7final :=
    OpReach.step h1 (OpStep.finish (startTask (initOpState 1) 0) 0 false rfl)
  exact C7_ordered_outputs C7work 1 1 (fun _ => C7out0) C7final [C7out0]
    (fun _ _ => rfl) (fun _ _ => rfl) hreach rfl

end RivetIterator

